import Mathlib

/-!
# Nedelec and Crouzeix-Raviart element construction (libtab)

A shallow embedding of `src/cpp/nedelec.cpp` and `src/cpp/crouzeix-raviart.cpp`.

Modelling conventions

* `int` and Eigen's signed `Index` are `Int`; `/` on `int` is the truncating `Int.tdiv`.
  The dimension formulas are read over the unbounded integers.
* `double` entries are rationals: arithmetic is exact, comparison is the comparison of the
  represented values. Rounding and NaN are not modelled.
* A dense Eigen array/matrix is a pair of dimensions and a total coefficient function; only the
  coefficients with `0 ≤ i < rows`, `0 ≤ j < cols` are meaningful. Eigen's size assertions are
  not modelled as failures: statements that depend on them carry the sizes as hypotheses.
* `throw std::runtime_error(msg)` is `Except.error (Exn.runtime_error msg)`.
* Functions of other translation units (cell description, polynomial tabulation, quadrature,
  integral moments, SVD, the dual-basis solver of the base class) are fields of `Collaborators`.
-/

namespace libtab

/-! ## Data model -/

/-- Modelled from the spec: the cell shapes `Cell::Type` (cell.h is not among the sources).
The code names `interval`, `triangle` and `tetrahedron`; every other enumerator of the
enumeration is `other n`. -/
inductive CellType where
  | interval
  | triangle
  | tetrahedron
  | other (n : Nat)
  deriving DecidableEq, Repr

/-- Failures: a `std::runtime_error` thrown by the code under study, or the failure reported by
the dual-basis solver. -/
inductive Exn where
  | runtime_error (what : String)
  | singular_dual_matrix
  deriving DecidableEq, Repr

/-- Dense vector with a run-time size (`Eigen::ArrayXd`, `Eigen::VectorXd`, a matrix column). -/
structure DVec where
  size : Int
  coeff : Int → ℚ

/-- Dense matrix with run-time dimensions
(`Eigen::Array<double, Dynamic, Dynamic, RowMajor>` and the `Matrix` of the same shape). -/
structure DMat where
  rows : Int
  cols : Int
  coeff : Int → Int → ℚ

/-- The moment space handed to the integral-moment builders, given by the arguments of its
construction at the call sites: `Lagrange(celltype, degree)`. -/
structure Lagrange where
  celltype : CellType
  degree : Int
  deriving DecidableEq, Repr

/-- Result of `Eigen::JacobiSVD`: the matrix `V` and the singular values. -/
structure JacobiSVD where
  matrixV : DMat
  singularValues : DVec

/-- Modelled from the spec: the state of a `FiniteElement` object (finite-element.h is not among
the sources): cell shape, degree, value size and the coefficient matrix `_coeffs`.
The field `value_size` is `none` while it holds whatever the base class constructor left
there. -/
structure FiniteElement where
  cell_type : CellType
  degree : Int
  value_size : Option Int
  coeffs : DMat

/-- The functions of other translation units that the code under study calls. -/
structure Collaborators where
  /-- The function `Cell::topological_dimension`. -/
  topological_dimension : CellType → Int
  /-- The function `Cell::topology`: per dimension, the entities as lists of vertex indices. -/
  topology : CellType → List (List (List Int))
  /-- The function `Cell::geometry`: vertex coordinates, one row per vertex. -/
  geometry : CellType → DMat
  /-- The function `Quadrature::make_quadrature(dim, degree)`: points and weights. -/
  make_quadrature : Int → Int → DMat × DVec
  /-- The function `PolynomialSet::tabulate(celltype, degree, nderiv, pts)`. -/
  tabulate : CellType → Int → Int → DMat → List DMat
  /-- The function `IntegralMoments::make_tangent_integral_moments`. -/
  make_tangent_integral_moments : Lagrange → CellType → Int → Int → Int → DMat
  /-- The function `IntegralMoments::make_integral_moments`. -/
  make_integral_moments : Lagrange → CellType → Int → Int → Int → DMat
  /-- The decomposition `Eigen::JacobiSVD` with thin `U` and `V`. -/
  svd : DMat → JacobiSVD
  /-- The method `FiniteElement::apply_dualmat_to_basis(wcoeffs, dualmat)`: the new `_coeffs`. -/
  apply_dualmat_to_basis : DMat → DMat → Except Exn DMat

/-! ## Loops -/

/-- The loop `for (int i = 0; i < n; ++i) s = body(i, s)` for `n` given as a natural number. -/
def loopN {σ : Type} (body : Int → σ → σ) : Nat → σ → σ
  | 0, s => s
  | n + 1, s => body (n : Int) (loopN body n s)

/-- The loop `for (int i = 0; i < n; ++i) s = body(i, s)`. -/
def forLoop {σ : Type} (n : Int) (body : Int → σ → σ) (s : σ) : σ :=
  loopN body n.toNat s

/-- The loop `for (int i = lo; i < lo + n; ++i) body(i)` where the body may throw. -/
def loopE (body : Int → Except Exn Unit) (lo : Int) : Nat → Except Exn Unit
  | 0 => Except.ok ()
  | n + 1 =>
    match loopE body lo n with
    | Except.ok _ => body (lo + (n : Int))
    | Except.error e => Except.error e

/-- The loop `for (int i = lo; i < hi; ++i) body(i)` where the body may throw. -/
def forLoopE (lo hi : Int) (body : Int → Except Exn Unit) : Except Exn Unit :=
  loopE body lo (hi - lo).toNat

/-! ## Dense vectors and matrices -/

namespace DVec

/-- Coefficient-wise product of two arrays (`a * b`); the size is that of the left operand. -/
def cmul (a b : DVec) : DVec := ⟨a.size, fun q => a.coeff q * b.coeff q⟩

/-- Coefficient-wise negation (`-a`). -/
def neg (a : DVec) : DVec := ⟨a.size, fun q => - a.coeff q⟩

/-- Sum of all coefficients (`a.sum()`). -/
def sum (a : DVec) : ℚ := ∑ q ∈ Finset.range a.size.toNat, a.coeff (q : Int)

end DVec

namespace DMat

/-- A `rows × cols` matrix after `setZero()`. -/
def zero (rows cols : Int) : DMat := ⟨rows, cols, fun _ _ => 0⟩

/-- The matrix `Eigen::MatrixXd::Identity(rows, cols)`. -/
def identity (rows cols : Int) : DMat := ⟨rows, cols, fun i j => if i = j then 1 else 0⟩

/-- Column `k` as an array (`M.col(k)`). -/
def col (M : DMat) (k : Int) : DVec := ⟨M.rows, fun q => M.coeff q k⟩

/-- Row `i` as an array (`M.row(i)`). -/
def row (M : DMat) (i : Int) : DVec := ⟨M.cols, fun q => M.coeff i q⟩

/-- The assignment `M(i, j) = v`. -/
def set (M : DMat) (i j : Int) (v : ℚ) : DMat :=
  ⟨M.rows, M.cols, fun a b => if a = i ∧ b = j then v else M.coeff a b⟩

/-- The read-only block `M.block(r0, c0, nr, nc)`. -/
def block (M : DMat) (r0 c0 nr nc : Int) : DMat :=
  ⟨nr, nc, fun a b => M.coeff (r0 + a) (c0 + b)⟩

/-- The assignment `M.block(r0, c0, nr, nc) = B`. -/
def setBlock (M : DMat) (r0 c0 nr nc : Int) (B : DMat) : DMat :=
  ⟨M.rows, M.cols, fun a b =>
    if r0 ≤ a ∧ a < r0 + nr ∧ c0 ≤ b ∧ b < c0 + nc then B.coeff (a - r0) (b - c0)
    else M.coeff a b⟩

/-- The transpose `M.transpose()`. -/
def transpose (M : DMat) : DMat := ⟨M.cols, M.rows, fun a b => M.coeff b a⟩

/-- The first `n` rows, `M.topRows(n)`. -/
def topRows (M : DMat) (n : Int) : DMat := ⟨n, M.cols, M.coeff⟩

/-- The matrix product `A * B`; the contraction runs over the columns of `A`. -/
def mul (A B : DMat) : DMat :=
  ⟨A.rows, B.cols, fun a b =>
    ∑ q ∈ Finset.range A.cols.toNat, A.coeff a (q : Int) * B.coeff (q : Int) b⟩

/-- The update `M.row(c) += v`. -/
def addRow (M : DMat) (c : Int) (v : DVec) : DMat :=
  ⟨M.rows, M.cols, fun a b => if a = c then M.coeff a b + v.coeff b else M.coeff a b⟩

/-- The update `M /= x` by a scalar. -/
def divScalar (M : DMat) (x : ℚ) : DMat := ⟨M.rows, M.cols, fun a b => M.coeff a b / x⟩

/-- The `resize(rows, cols)` of a fresh matrix; the coefficients are not initialised by Eigen
and are read as zero here. -/
def resize (rows cols : Int) : DMat := ⟨rows, cols, fun _ _ => 0⟩

end DMat

/-- The element `v[0]` of a vector of matrices; reading an empty vector is undefined in the
source and yields the empty matrix here. -/
def first (v : List DMat) : DMat := v.headD (DMat.zero 0 0)

/-! ## `nedelec.cpp`: spanning sets and functional matrices -/

/-- The spanning matrix of the Nedelec space on the triangle (`create_nedelec_2d_space`). -/
def create_nedelec_2d_space (env : Collaborators) (degree : Int) : DMat :=
  let tdim : Int := 2
  let nv := Int.tdiv ((degree + 1) * (degree + 2)) 2
  let ns := degree + 1
  let ns0 := Int.tdiv ((degree + 1) * degree) 2
  let Q := env.make_quadrature tdim (2 * degree + 2)
  let Qpts := Q.1
  let Qwts := Q.2
  let Pkp1_at_Qpts := first (env.tabulate CellType.triangle (degree + 1) 0 Qpts)
  let psize := Pkp1_at_Qpts.cols
  let wcoeffs := DMat.zero (nv * 2 + ns) (psize * 2)
  let wcoeffs := wcoeffs.setBlock 0 0 nv nv (DMat.identity nv nv)
  let wcoeffs := wcoeffs.setBlock nv psize nv nv (DMat.identity nv nv)
  forLoop ns (fun i w =>
    forLoop psize (fun k w =>
      let w0 := ((Qwts.cmul (Pkp1_at_Qpts.col (ns0 + i))).cmul (Qpts.col 1)).cmul
        (Pkp1_at_Qpts.col k)
      let w := w.set (2 * nv + i) k w0.sum
      let w1 := ((Qwts.neg.cmul (Pkp1_at_Qpts.col (ns0 + i))).cmul (Qpts.col 0)).cmul
        (Pkp1_at_Qpts.col k)
      w.set (2 * nv + i) (k + psize) w1.sum) w) wcoeffs

/-- The functional matrix of the Nedelec element on the triangle (`create_nedelec_2d_dual`). -/
def create_nedelec_2d_dual (env : Collaborators) (degree : Int) : DMat :=
  let ndofs := 3 * (degree + 1) + degree * (degree + 1)
  let psize := Int.tdiv ((degree + 2) * (degree + 3)) 2
  let dualmat := DMat.zero ndofs (psize * 2)
  let quad_deg := 5 * (degree + 1)
  let moment_space_E : Lagrange := ⟨CellType.interval, degree⟩
  let dualmat := dualmat.setBlock 0 0 (3 * (degree + 1)) (psize * 2)
    (env.make_tangent_integral_moments moment_space_E CellType.triangle 2 (degree + 1) quad_deg)
  if degree > 0 then
    let moment_space_I : Lagrange := ⟨CellType.triangle, degree - 1⟩
    dualmat.setBlock (3 * (degree + 1)) 0 (degree * (degree + 1)) (psize * 2)
      (env.make_integral_moments moment_space_I CellType.triangle 2 (degree + 1) quad_deg)
  else dualmat

/-- The spanning matrix assembled by `create_nedelec_3d_space` before the SVD
(the local `wcoeffs` at line 134). -/
def create_nedelec_3d_space_wcoeffs (env : Collaborators) (degree : Int) : DMat :=
  let tdim : Int := 3
  let nv := Int.tdiv ((degree + 1) * (degree + 2) * (degree + 3)) 6
  let ns := Int.tdiv ((degree + 1) * (degree + 2)) 2
  let ns0 := Int.tdiv (degree * (degree + 1) * (degree + 2)) 6
  let Q := env.make_quadrature tdim (2 * degree + 2)
  let Qpts := Q.1
  let Qwts := Q.2
  let Pkp1_at_Qpts := first (env.tabulate CellType.tetrahedron (degree + 1) 0 Qpts)
  let psize := Pkp1_at_Qpts.cols
  let wcoeffs := DMat.zero ((nv + ns) * tdim) (psize * tdim)
  let wcoeffs := forLoop tdim (fun i w =>
    w.setBlock (nv * i) (psize * i) nv nv (DMat.identity nv nv)) wcoeffs
  forLoop ns (fun i w =>
    forLoop psize (fun k w =>
      forLoop tdim (fun j w =>
        let j1 := Int.tmod (j + 1) 3
        let j2 := Int.tmod (j + 2) 3
        let wq := ((Qwts.cmul (Pkp1_at_Qpts.col (ns0 + i))).cmul (Qpts.col j)).cmul
          (Pkp1_at_Qpts.col k)
        let w := w.set (tdim * nv + i + ns * j1) (psize * j2 + k) (- wq.sum)
        w.set (tdim * nv + i + ns * j2) (psize * j1 + k) wq.sum) w) w) wcoeffs

/-- The number of dofs computed inside `create_nedelec_3d_space` and `create_nedelec_3d_dual`. -/
def nedelec_3d_ndofs (degree : Int) : Int :=
  6 * (degree + 1) + 4 * degree * (degree + 1)
    + Int.tdiv ((degree - 1) * degree * (degree + 1)) 2

/-- The literal `1e-12`: the double nearest to it is `4951760157141521 / 2 ^ 92`. -/
def tol : ℚ := 4951760157141521 / 2 ^ 92

/-- The reduced spanning matrix of the Nedelec space on the tetrahedron
(`create_nedelec_3d_space`). -/
def create_nedelec_3d_space (env : Collaborators) (degree : Int) : Except Exn DMat :=
  let wcoeffs := create_nedelec_3d_space_wcoeffs env degree
  let svd := env.svd wcoeffs
  let ndofs := nedelec_3d_ndofs degree
  let wcoeffs := svd.matrixV.transpose.topRows ndofs
  let s := svd.singularValues
  match forLoopE 0 ndofs (fun i =>
      if s.coeff i < tol then Except.error (Exn.runtime_error "Error in Nedelec3D space")
      else Except.ok ()) with
  | Except.error e => Except.error e
  | Except.ok _ =>
    match forLoopE ndofs s.size (fun i =>
        if s.coeff i > tol then Except.error (Exn.runtime_error "Error in Nedelec3D space")
        else Except.ok ()) with
    | Except.error e => Except.error e
    | Except.ok _ => Except.ok wcoeffs

/-- The functional matrix of the Nedelec element on the tetrahedron
(`create_nedelec_3d_dual`). -/
def create_nedelec_3d_dual (env : Collaborators) (degree : Int) : DMat :=
  let tdim : Int := 3
  let psize := Int.tdiv ((degree + 2) * (degree + 3) * (degree + 4)) 6
  let ndofs := 6 * (degree + 1) + 4 * degree * (degree + 1)
    + Int.tdiv ((degree - 1) * degree * (degree + 1)) 2
  let dualmat := DMat.zero ndofs (psize * tdim)
  let quad_deg := 5 * (degree + 1)
  let moment_space_E : Lagrange := ⟨CellType.interval, degree⟩
  let dualmat := dualmat.setBlock 0 0 (6 * (degree + 1)) (psize * 3)
    (env.make_tangent_integral_moments moment_space_E CellType.tetrahedron 3 (degree + 1)
      quad_deg)
  let dualmat :=
    if degree > 0 then
      let moment_space_F : Lagrange := ⟨CellType.triangle, degree - 1⟩
      dualmat.setBlock (6 * (degree + 1)) 0 (4 * degree * (degree + 1)) (psize * 3)
        (env.make_integral_moments moment_space_F CellType.tetrahedron 3 (degree + 1) quad_deg)
    else dualmat
  if degree > 1 then
    let moment_space_I : Lagrange := ⟨CellType.tetrahedron, degree - 2⟩
    dualmat.setBlock (6 * (degree + 1) + 4 * degree * (degree + 1)) 0
      (Int.tdiv ((degree - 1) * degree * (degree + 1)) 2) (psize * 3)
      (env.make_integral_moments moment_space_I CellType.tetrahedron 3 (degree + 1) quad_deg)
  else dualmat

/-! ## `nedelec.cpp`: the element -/

/-- The constructor `Nedelec::Nedelec(celltype, k)`; the base class is initialised with degree
`k - 1`. -/
def Nedelec (env : Collaborators) (celltype : CellType) (k : Int) : Except Exn FiniteElement :=
  let degree := k - 1
  match celltype with
  | CellType.triangle =>
    let wcoeffs := create_nedelec_2d_space env degree
    let dualmat := create_nedelec_2d_dual env degree
    (env.apply_dualmat_to_basis wcoeffs dualmat).map
      (fun c => FiniteElement.mk celltype degree none c)
  | CellType.tetrahedron =>
    match create_nedelec_3d_space env degree with
    | Except.error e => Except.error e
    | Except.ok wcoeffs =>
      let dualmat := create_nedelec_3d_dual env degree
      (env.apply_dualmat_to_basis wcoeffs dualmat).map
        (fun c => FiniteElement.mk celltype degree none c)
  | _ => Except.error (Exn.runtime_error "Invalid celltype in Nedelec")

/-- The result matrix that `Nedelec::tabulate` builds from one tabulated matrix `P`
(the body of the loop over `p`). -/
def Nedelec.tabulate_one (coeffs : DMat) (tdim psize : Int) (pts P : DMat) : DMat :=
  let ndofs := coeffs.rows
  forLoop tdim (fun j d =>
    d.setBlock 0 (ndofs * j) pts.rows ndofs
      (P.mul (coeffs.block 0 (psize * j) coeffs.rows psize).transpose))
    (DMat.resize pts.rows (ndofs * tdim))

/-- The method `Nedelec::tabulate(nderiv, pts)` of an element `self`. -/
def Nedelec.tabulate (env : Collaborators) (self : FiniteElement) (nderiv : Int) (pts : DMat) :
    Except Exn (List DMat) :=
  let tdim := env.topological_dimension self.cell_type
  if pts.cols ≠ tdim then
    Except.error (Exn.runtime_error "Point dimension does not match element dimension")
  else
    let Pkp1_at_pts := env.tabulate self.cell_type (self.degree + 1) nderiv pts
    let psize := (first Pkp1_at_pts).cols
    Except.ok (Pkp1_at_pts.map (Nedelec.tabulate_one self.coeffs tdim psize pts))

/-! ## `crouzeix-raviart.cpp` -/

/-- The evaluation points of `CrouzeixRaviart::CrouzeixRaviart` (lines 24-43): the sum of the
vertices of each facet, divided by the topological dimension. -/
def CrouzeixRaviart.pts (env : Collaborators) (celltype : CellType) : DMat :=
  let tdim := env.topological_dimension celltype
  let facet_topology := (env.topology celltype).getD (tdim - 1).toNat []
  let geometry := env.geometry celltype
  let ndofs : Int := facet_topology.length
  let pts := DMat.zero ndofs tdim
  let st := facet_topology.foldl (fun (st : DMat × Int) f =>
    (f.foldl (fun pts i => pts.addRow st.2 (geometry.row i)) st.1, st.2 + 1)) (pts, 0)
  st.1.divScalar (tdim : ℚ)

/-- The constructor `CrouzeixRaviart::CrouzeixRaviart(celltype, k)`. -/
def CrouzeixRaviart (env : Collaborators) (celltype : CellType) (k : Int) :
    Except Exn FiniteElement :=
  if k ≠ 1 then Except.error (Exn.runtime_error "Only defined for degree 1")
  else
    let tdim := env.topological_dimension celltype
    let facet_topology := (env.topology celltype).getD (tdim - 1).toNat []
    let ndofs : Int := facet_topology.length
    let pts := CrouzeixRaviart.pts env celltype
    let coeffs := DMat.identity ndofs ndofs
    let dualmat := first (env.tabulate celltype 1 0 pts)
    (env.apply_dualmat_to_basis coeffs dualmat).map
      (fun c => FiniteElement.mk celltype k (some 1) c)

/-! ## The dual-basis solver -/

/-- The square matrix of order `n` read from the top left corner of a dense matrix. -/
def DMat.toMatrix (M : DMat) (n : Nat) : Matrix (Fin n) (Fin n) ℚ :=
  fun i j => M.coeff (i.val : Int) (j.val : Int)

/-- The dense matrix holding a square matrix of order `n`. -/
def DMat.ofMatrix {n : Nat} (A : Matrix (Fin n) (Fin n) ℚ) : DMat :=
  ⟨n, n, fun a b =>
    if h : a.toNat < n ∧ b.toNat < n then A ⟨a.toNat, h.1⟩ ⟨b.toNat, h.2⟩ else 0⟩

/-- Modelled from the spec: the solve `D · X = I` of section 4.1, which fails when `D` is
singular. Over exact arithmetic the solution is `det(D)⁻¹ · adj(D)`. -/
def solve_identity (D : DMat) : Option DMat :=
  let A := D.toMatrix D.rows.toNat
  if A.det = 0 then none else some (DMat.ofMatrix (A.det⁻¹ • A.adjugate))

/-- Modelled from the spec: `FiniteElement::apply_dualmat_to_basis` (finite-element.cpp is not
among the sources). Section 4.1: form `D = dualmat · wcoeffsᵗ`, solve `D · X = I`, set
`_coeffs = Xᵗ · wcoeffs`; fail with `SingularDualMatrix` when `D` is singular. -/
def apply_dualmat_to_basis (wcoeffs dualmat : DMat) : Except Exn DMat :=
  let D := dualmat.mul wcoeffs.transpose
  match solve_identity D with
  | none => Except.error Exn.singular_dual_matrix
  | some X => Except.ok (X.transpose.mul wcoeffs)

/-! ## The rotational loops of `create_nedelec_3d_space` -/

/-- The body of the innermost loop of `create_nedelec_3d_space` (lines 127-133) for the sizes
`nv`, `ns`, `psize`, where `val i k j` stands for the quadrature sum `w.sum()`. -/
def rotation_body (nv ns psize : Int) (val : Int → Int → Int → ℚ) (i k j : Int) (w : DMat) :
    DMat :=
  let j1 := Int.tmod (j + 1) 3
  let j2 := Int.tmod (j + 2) 3
  let w := w.set (3 * nv + i + ns * j1) (psize * j2 + k) (- val i k j)
  w.set (3 * nv + i + ns * j2) (psize * j1 + k) (val i k j)

/-- The three nested loops of `create_nedelec_3d_space` (lines 123-134). -/
def rotation_loops (nv ns psize : Int) (val : Int → Int → Int → ℚ) (w : DMat) : DMat :=
  forLoop ns (fun i w =>
    forLoop psize (fun k w =>
      forLoop 3 (fun j w => rotation_body nv ns psize val i k j w) w) w) w

/-- The entry assigned at line 132 in round `(i, k, j)`: row and column of the write of
`-w.sum()`. -/
def rotation_write_neg (nv ns psize i k j : Int) : Int × Int :=
  (3 * nv + i + ns * Int.tmod (j + 1) 3, psize * Int.tmod (j + 2) 3 + k)

/-- The entry assigned at line 133 in round `(i, k, j)`: row and column of the write of
`w.sum()`. -/
def rotation_write_pos (nv ns psize i k j : Int) : Int × Int :=
  (3 * nv + i + ns * Int.tmod (j + 2) 3, psize * Int.tmod (j + 1) 3 + k)

/-- The content of block `(a, b)` of the rotational rows after the rounds of one pair `(i, k)`,
given the previous content `x`: a diagonal block keeps `x`; with `j` the third index, the block
`(a, b) = (j + 1, j + 2) mod 3` holds `-val i k j` and the block `(j + 2, j + 1) mod 3` holds
`val i k j`. -/
def rotation_entry (val : Int → Int → Int → ℚ) (i k a b : Int) (x : ℚ) : ℚ :=
  if a = b then x
  else if (a = 0 ∧ b = 1) ∨ (a = 1 ∧ b = 2) ∨ (a = 2 ∧ b = 0) then - val i k (3 - a - b)
  else val i k (3 - a - b)

/-! ## Concrete collaborators for evaluating the code -/

/-- Reference simplex geometry: vertex `0` is the origin, vertex `i + 1` the `i`-th unit
vector. -/
def sample_geometry (celltype : CellType) : DMat :=
  match celltype with
  | CellType.interval => ⟨2, 1, fun i j => if i = j + 1 then 1 else 0⟩
  | CellType.triangle => ⟨3, 2, fun i j => if i = j + 1 then 1 else 0⟩
  | CellType.tetrahedron => ⟨4, 3, fun i j => if i = j + 1 then 1 else 0⟩
  | CellType.other _ => DMat.zero 0 0

/-- Reference simplex topology; edge `i` of the triangle is opposite to vertex `i`. -/
def sample_topology (celltype : CellType) : List (List (List Int)) :=
  match celltype with
  | CellType.interval => [[[0], [1]], [[0, 1]]]
  | CellType.triangle => [[[0], [1], [2]], [[1, 2], [0, 2], [0, 1]], [[0, 1, 2]]]
  | CellType.tetrahedron =>
    [[[0], [1], [2], [3]], [[2, 3], [1, 3], [1, 2], [0, 3], [0, 2], [0, 1]],
      [[1, 2, 3], [0, 2, 3], [0, 1, 3], [0, 1, 2]], [[0, 1, 2, 3]]]
  | CellType.other _ => []

/-- Topological dimension of the reference cells. -/
def sample_topological_dimension (celltype : CellType) : Int :=
  match celltype with
  | CellType.interval => 1
  | CellType.triangle => 2
  | CellType.tetrahedron => 3
  | CellType.other _ => 0

/-- The edge midpoints of the reference triangle: `(1/2, 0)`, `(1/2, 1/2)`, `(0, 1/2)`. -/
def sample_Qpts : DMat :=
  ⟨3, 2, fun q j =>
    if (q = 0 ∧ j = 0) ∨ (q = 1 ∧ j = 0) ∨ (q = 1 ∧ j = 1) ∨ (q = 2 ∧ j = 1) then 1 / 2
    else 0⟩

/-- The weights of the edge-midpoint rule, `1/6` each. -/
def sample_Qwts : DVec := ⟨3, fun _ => 1 / 6⟩

/-- A quadrature rule with rational points: in dimension 2 the edge-midpoint rule of the
reference triangle (exact for degree 2), otherwise the centroid rule of the reference
tetrahedron (weight `1/6`). -/
def sample_quadrature (dim _m : Int) : DMat × DVec :=
  if dim = 2 then (sample_Qpts, sample_Qwts)
  else (⟨1, 3, fun _ _ => 1 / 4⟩, ⟨1, fun _ => 1 / 6⟩)

/-- A polynomial family with rational values: `1, x_0, x_1, ...` (degree one), tabulated
without derivatives. -/
def sample_tabulate (_celltype : CellType) (_degree _nderiv : Int) (pts : DMat) : List DMat :=
  [⟨pts.rows, pts.cols + 1, fun q k => if k = 0 then 1 else pts.coeff q (k - 1)⟩]

/-- Concrete collaborators. The reported singular values are `1, 1, 1, 1, 1` followed by one
value equal to the tolerance. -/
def sample_env : Collaborators where
  topological_dimension := sample_topological_dimension
  topology := sample_topology
  geometry := sample_geometry
  make_quadrature := sample_quadrature
  tabulate := sample_tabulate
  make_tangent_integral_moments := fun _ _ _ _ _ => DMat.zero 0 0
  make_integral_moments := fun _ _ _ _ _ => DMat.zero 0 0
  svd := fun _ => ⟨DMat.identity 12 6, ⟨6, fun i => if i = 5 then tol else 1⟩⟩
  apply_dualmat_to_basis := apply_dualmat_to_basis

/-- A lowest-order element on the triangle with three basis functions, for evaluating
`Nedelec::tabulate`. -/
def sample_element : FiniteElement := ⟨CellType.triangle, 0, none, DMat.identity 3 6⟩

/-- One point of the plane, the centroid of the reference triangle. -/
def sample_points : DMat := ⟨1, 2, fun _ _ => 1 / 3⟩

/-- One point with three coordinates. -/
def sample_points_3d : DMat := ⟨1, 3, fun _ _ => 1 / 4⟩

/-- Concrete collaborators whose reported singular values show a clean gap at degree 1:
twenty values `1` followed by one value `0`. -/
def clean_gap_env : Collaborators :=
  { sample_env with
    svd := fun _ => ⟨DMat.identity 30 21, ⟨21, fun i => if i < 20 then 1 else 0⟩⟩ }

/-- The hexahedron, one of the cell shapes that the sources do not name. -/
def hexahedron : CellType := CellType.other 0

/-- The reference hexahedron: the unit cube with vertex `v` at the binary digits of `v`, and
its vertices, edges, faces and interior as lists of vertex indices. -/
def hexahedron_env : Collaborators :=
  { sample_env with
    topological_dimension := fun _ => 3
    topology := fun _ =>
      [[[0], [1], [2], [3], [4], [5], [6], [7]],
        [[0, 1], [0, 2], [0, 4], [1, 3], [1, 5], [2, 3], [2, 6], [3, 7], [4, 5], [4, 6],
          [5, 7], [6, 7]],
        [[0, 1, 2, 3], [0, 1, 4, 5], [0, 2, 4, 6], [1, 3, 5, 7], [2, 3, 6, 7], [4, 5, 6, 7]],
        [[0, 1, 2, 3, 4, 5, 6, 7]]]
    geometry := fun _ =>
      ⟨8, 3, fun v j =>
        if j = 0 then (if v = 1 ∨ v = 3 ∨ v = 5 ∨ v = 7 then 1 else 0)
        else if j = 1 then (if v = 2 ∨ v = 3 ∨ v = 6 ∨ v = 7 then 1 else 0)
        else (if v = 4 ∨ v = 5 ∨ v = 6 ∨ v = 7 then 1 else 0)⟩ }

/-- The facet midpoints in the words of the specification, to be compared with
`CrouzeixRaviart.pts`: one row per facet in facet order, row `c` being the arithmetic mean of
the coordinates of the vertices of facet `c` (the vertex sum divided by the number of vertices
of that facet). -/
def facet_midpoints (env : Collaborators) (celltype : CellType) : DMat :=
  let tdim := env.topological_dimension celltype
  let facet_topology := (env.topology celltype).getD (tdim - 1).toNat []
  let geometry := env.geometry celltype
  ⟨facet_topology.length, tdim, fun c j =>
    if 0 ≤ c then
      match facet_topology[c.toNat]? with
      | some f => (f.map (fun i => geometry.coeff i j)).sum / (f.length : ℚ)
      | none => 0
    else 0⟩

theorem two_mul_tdiv_consecutive (a : Int) (ha : 0 ≤ a) :
    Int.tdiv (a * (a + 1)) 2 * 2 = a * (a + 1) := by
  have hnn : 0 ≤ a * (a + 1) := mul_nonneg ha (by omega)
  rw [Int.tdiv_eq_ediv hnn (by norm_num)]
  have hev : (2 : Int) ∣ a * (a + 1) := (Int.even_mul_succ_self a).two_dvd
  exact Int.ediv_mul_cancel hev

theorem six_dvd_three_consecutive (n : Nat) :
    (6 : Int) ∣ (n : Int) * ((n : Int) + 1) * ((n : Int) + 2) := by
  induction n with
  | zero => simp
  | succ m ih =>
    obtain ⟨c, hc⟩ := ih
    obtain ⟨e, he⟩ := (Int.even_mul_succ_self ((m : Int) + 1)).two_dvd
    refine ⟨c + e, ?_⟩
    push_cast
    have he2 : ((m : Int) + 1) * ((m : Int) + 1 + 1) = 2 * e := he
    linear_combination hc + 3 * he2

theorem six_mul_tdiv_consecutive (a : Int) (ha : 0 ≤ a) :
    Int.tdiv (a * (a + 1) * (a + 2)) 6 * 6 = a * (a + 1) * (a + 2) := by
  have hnn : 0 ≤ a * (a + 1) * (a + 2) :=
    mul_nonneg (mul_nonneg ha (by omega)) (by omega)
  rw [Int.tdiv_eq_ediv hnn (by norm_num)]
  obtain ⟨n, rfl⟩ := Int.eq_ofNat_of_zero_le ha
  exact Int.ediv_mul_cancel (six_dvd_three_consecutive n)

/-- The interior term `(d - 1) d (d + 1) / 2` of the tetrahedron count is an exact division for
every `d ≥ 0` (the numerator vanishes at `d = 0`, where `d - 1` is negative). -/
theorem two_mul_tdiv_interior (d : Int) (hd : 0 ≤ d) :
    Int.tdiv ((d - 1) * d * (d + 1)) 2 * 2 = (d - 1) * d * (d + 1) := by
  rcases eq_or_lt_of_le hd with h0 | hpos
  · subst h0; decide
  · have h1 : 0 ≤ d - 1 := by omega
    have hnn : 0 ≤ (d - 1) * d * (d + 1) := mul_nonneg (mul_nonneg h1 hd) (by omega)
    rw [Int.tdiv_eq_ediv hnn (by norm_num)]
    have hev : (2 : Int) ∣ (d - 1) * d * (d + 1) := by
      have h2 := (Int.even_mul_succ_self (d - 1)).two_dvd
      have h3 : d - 1 + 1 = d := by ring
      rw [h3] at h2
      exact Dvd.dvd.mul_right h2 _
    exact Int.ediv_mul_cancel hev

/-- Range of the 32-bit `int`: on the triangle every product of the dimension formulas stays
below `2 ^ 31` for degrees up to 46338, so the machine evaluation agrees with the integers. -/
theorem triangle_products_below_int_max (d : Int) (h0 : 0 ≤ d) (h1 : d ≤ 46338) :
    (d + 2) * (d + 3) < 2 ^ 31 := by
  have h : (d + 2) * (d + 3) ≤ 46340 * 46341 :=
    mul_le_mul (by omega) (by omega) (by omega) (by norm_num)
  exact lt_of_le_of_lt h (by norm_num)

/-- Range of the 32-bit `int`: on the tetrahedron every product of the dimension formulas stays
below `2 ^ 31` for degrees up to 1287. -/
theorem tetrahedron_products_below_int_max (d : Int) (h0 : 0 ≤ d) (h1 : d ≤ 1287) :
    (d + 2) * (d + 3) * (d + 4) < 2 ^ 31 := by
  have h2 : (d + 2) * (d + 3) ≤ 1289 * 1290 :=
    mul_le_mul (by omega) (by omega) (by omega) (by norm_num)
  have h : (d + 2) * (d + 3) * (d + 4) ≤ 1289 * 1290 * 1291 :=
    mul_le_mul h2 (by omega) (by omega) (by norm_num)
  exact lt_of_le_of_lt h (by norm_num)

/-! ## Loops and shapes -/

theorem loopN_invariant {σ : Type} (P : σ → Prop) (body : Int → σ → σ)
    (hbody : ∀ i s, P s → P (body i s)) (n : Nat) (s : σ) (hs : P s) :
    P (loopN body n s) := by
  induction n with
  | zero => exact hs
  | succ m ih => exact hbody _ _ ih

theorem forLoop_invariant {σ : Type} (P : σ → Prop) (body : Int → σ → σ)
    (hbody : ∀ i s, P s → P (body i s)) (n : Int) (s : σ) (hs : P s) :
    P (forLoop n body s) :=
  loopN_invariant P body hbody _ s hs

theorem forLoop_rows (body : Int → DMat → DMat) (hbody : ∀ i s, (body i s).rows = s.rows)
    (n : Int) (s : DMat) : (forLoop n body s).rows = s.rows :=
  forLoop_invariant (fun w => w.rows = s.rows) body (fun i w hw => (hbody i w).trans hw) n s rfl

theorem forLoop_cols (body : Int → DMat → DMat) (hbody : ∀ i s, (body i s).cols = s.cols)
    (n : Int) (s : DMat) : (forLoop n body s).cols = s.cols :=
  forLoop_invariant (fun w => w.cols = s.cols) body (fun i w hw => (hbody i w).trans hw) n s rfl

theorem create_nedelec_2d_space_rows (env : Collaborators) (d : Int) :
    (create_nedelec_2d_space env d).rows = Int.tdiv ((d + 1) * (d + 2)) 2 * 2 + (d + 1) := by
  unfold create_nedelec_2d_space
  dsimp only
  rw [forLoop_rows]
  · rfl
  · intro i s
    rw [forLoop_rows]
    intro k w
    rfl

theorem create_nedelec_2d_dual_rows (env : Collaborators) (d : Int) :
    (create_nedelec_2d_dual env d).rows = 3 * (d + 1) + d * (d + 1) := by
  unfold create_nedelec_2d_dual
  simp only []
  split <;> rfl

/-- C4. For every internal degree `d ≥ 0` the functional matrix of `create_nedelec_2d_dual` has
`3 (d + 1) + d (d + 1)` rows, the spanning matrix of `create_nedelec_2d_space` has `2 nv + ns`
rows with `nv = (d + 1)(d + 2) / 2` (an exact division) and `ns = d + 1`, and the two row counts
agree: the system handed to the dual-basis solver is square. -/
theorem nedelec_2d_square_system (env : Collaborators) (d : Int) (hd : 0 ≤ d) :
    (create_nedelec_2d_dual env d).rows = 3 * (d + 1) + d * (d + 1)
    ∧ (create_nedelec_2d_space env d).rows = 2 * Int.tdiv ((d + 1) * (d + 2)) 2 + (d + 1)
    ∧ 2 * Int.tdiv ((d + 1) * (d + 2)) 2 = (d + 1) * (d + 2)
    ∧ (create_nedelec_2d_space env d).rows = (create_nedelec_2d_dual env d).rows := by
  have hnv := two_mul_tdiv_consecutive (d + 1) (by omega)
  have hnv2 : Int.tdiv ((d + 1) * (d + 2)) 2 * 2 = (d + 1) * (d + 2) := by
    have : d + 1 + 1 = d + 2 := by ring
    rw [this] at hnv
    exact hnv
  rw [create_nedelec_2d_space_rows, create_nedelec_2d_dual_rows]
  refine ⟨rfl, by ring, by linarith, ?_⟩
  linear_combination hnv2

/-! ## Tetrahedron: size of the spanning set before the rank reduction -/

theorem create_nedelec_3d_space_wcoeffs_rows (env : Collaborators) (d : Int) :
    (create_nedelec_3d_space_wcoeffs env d).rows
      = (Int.tdiv ((d + 1) * (d + 2) * (d + 3)) 6 + Int.tdiv ((d + 1) * (d + 2)) 2) * 3 := by
  unfold create_nedelec_3d_space_wcoeffs
  dsimp only
  rw [forLoop_rows, forLoop_rows]
  · rfl
  · intro i s
    rfl
  · intro i s
    rw [forLoop_rows]
    intro k w
    rw [forLoop_rows]
    intro j w2
    rfl

/-- Twice the difference between the unreduced row count and `ndofs` is `d (d + 1)`. -/
theorem nedelec_3d_excess (d : Int) (hd : 0 ≤ d) :
    2 * ((Int.tdiv ((d + 1) * (d + 2) * (d + 3)) 6 + Int.tdiv ((d + 1) * (d + 2)) 2) * 3
        - nedelec_3d_ndofs d) = d * (d + 1) := by
  have h6 := six_mul_tdiv_consecutive (d + 1) (by omega)
  have h2 := two_mul_tdiv_consecutive (d + 1) (by omega)
  have hi := two_mul_tdiv_interior d hd
  have e1 : d + 1 + 1 = d + 2 := by ring
  have e2 : d + 1 + 2 = d + 3 := by ring
  rw [e1, e2] at h6
  rw [e1] at h2
  unfold nedelec_3d_ndofs
  linear_combination h6 + 3 * h2 - hi

/-- A matrix returned by `create_nedelec_3d_space` has `ndofs` rows. -/
theorem create_nedelec_3d_space_rows (env : Collaborators) (d : Int) (W : DMat)
    (h : create_nedelec_3d_space env d = Except.ok W) : W.rows = nedelec_3d_ndofs d := by
  unfold create_nedelec_3d_space at h
  dsimp only at h
  split at h
  · cases h
  · split at h
    · cases h
    · injection h with h
      rw [← h]
      rfl

/-- C5, as the code has it. For every internal degree `d ≥ 0` the matrix assembled in
`create_nedelec_3d_space` before the rank reduction has `(nv + ns) * 3` rows, this is at least
`ndofs = 6 (d + 1) + 4 d (d + 1) + (d - 1) d (d + 1) / 2`, and it is strictly greater exactly
when `d ≥ 1`; a matrix returned after the reduction has `ndofs` rows, so the reduction removes
at least one row exactly when `d ≥ 1`. -/
theorem nedelec_3d_overcomplete (env : Collaborators) (d : Int) (hd : 0 ≤ d) :
    (create_nedelec_3d_space_wcoeffs env d).rows
      = (Int.tdiv ((d + 1) * (d + 2) * (d + 3)) 6 + Int.tdiv ((d + 1) * (d + 2)) 2) * 3
    ∧ nedelec_3d_ndofs d
      = 6 * (d + 1) + 4 * d * (d + 1) + Int.tdiv ((d - 1) * d * (d + 1)) 2
    ∧ nedelec_3d_ndofs d ≤ (create_nedelec_3d_space_wcoeffs env d).rows
    ∧ (nedelec_3d_ndofs d < (create_nedelec_3d_space_wcoeffs env d).rows ↔ 1 ≤ d)
    ∧ ∀ W : DMat, create_nedelec_3d_space env d = Except.ok W →
        (1 ≤ (create_nedelec_3d_space_wcoeffs env d).rows - W.rows ↔ 1 ≤ d) := by
  have hex := nedelec_3d_excess d hd
  have hrows := create_nedelec_3d_space_wcoeffs_rows env d
  have hprod : 0 ≤ d * (d + 1) := mul_nonneg hd (by omega)
  have hiff : nedelec_3d_ndofs d < (create_nedelec_3d_space_wcoeffs env d).rows ↔ 1 ≤ d := by
    rw [hrows]
    constructor
    · intro hlt
      by_contra hcon
      have h0 : d = 0 := by omega
      have hz : d * (d + 1) = 0 := by rw [h0]; decide
      omega
    · intro h1
      have hpos : 0 < d * (d + 1) := mul_pos (by omega) (by omega)
      omega
  refine ⟨hrows, rfl, by rw [hrows]; omega, hiff, ?_⟩
  intro W hW
  rw [create_nedelec_3d_space_rows env d W hW, ← hiff]
  omega

/-- C5 witness: degree 1 with the concrete collaborators. -/
theorem nedelec_3d_overcomplete_witness :
    (0 : Int) ≤ 1
    ∧ nedelec_3d_ndofs 1 < (create_nedelec_3d_space_wcoeffs sample_env 1).rows :=
  ⟨by decide, (nedelec_3d_overcomplete sample_env 1 (by decide)).2.2.2.1.mpr (by decide)⟩

/-- C5 counterexample: at degree 0 the assembled matrix has exactly `ndofs = 6` rows, so the
spanning set is not strictly larger than `ndofs`. -/
theorem nedelec_3d_overcomplete_fails_at_zero :
    (create_nedelec_3d_space_wcoeffs sample_env 0).rows = 6
    ∧ nedelec_3d_ndofs 0 = 6
    ∧ ¬ (nedelec_3d_ndofs 0 < (create_nedelec_3d_space_wcoeffs sample_env 0).rows) := by
  have hr : (create_nedelec_3d_space_wcoeffs sample_env 0).rows = 6 := by
    rw [create_nedelec_3d_space_wcoeffs_rows]; decide
  have hn : nedelec_3d_ndofs 0 = 6 := by decide
  refine ⟨hr, hn, ?_⟩
  rw [hr, hn]
  decide

/-- C4 witness: degree 2 with the concrete collaborators. -/
theorem nedelec_2d_square_system_witness :
    (0 : Int) ≤ 2
    ∧ (create_nedelec_2d_space sample_env 2).rows = (create_nedelec_2d_dual sample_env 2).rows :=
  ⟨by decide, (nedelec_2d_square_system sample_env 2 (by decide)).2.2.2⟩

/-! ## Tetrahedron: the singular-value check -/

theorem loopE_ok_iff (body : Int → Except Exn Unit) (lo : Int) (n : Nat) :
    loopE body lo n = Except.ok () ↔ ∀ t : Nat, t < n → body (lo + (t : Int)) = Except.ok () := by
  induction n with
  | zero => simp [loopE]
  | succ m ih =>
    unfold loopE
    constructor
    · intro h t ht
      cases hl : loopE body lo m with
      | error e => rw [hl] at h; cases h
      | ok u =>
        rw [hl] at h
        rcases Nat.lt_succ_iff_lt_or_eq.mp ht with hlt | heq
        · exact (ih.mp hl) t hlt
        · rw [heq]; exact h
    · intro h
      have hm : loopE body lo m = Except.ok () :=
        ih.mpr (fun t ht => h t (Nat.lt_succ_of_lt ht))
      rw [hm]
      exact h m (Nat.lt_succ_self m)

theorem loopE_ok_or_error (body : Int → Except Exn Unit) (e : Exn)
    (hbody : ∀ i, body i = Except.ok () ∨ body i = Except.error e) (lo : Int) (n : Nat) :
    loopE body lo n = Except.ok () ∨ loopE body lo n = Except.error e := by
  induction n with
  | zero => left; rfl
  | succ m ih =>
    unfold loopE
    rcases ih with h | h
    · rw [h]; exact hbody _
    · rw [h]; right; rfl

/-- The matrix returned by `create_nedelec_3d_space` when both check loops pass. -/
theorem create_nedelec_3d_space_ok (env : Collaborators) (d : Int)
    (h1 : ∀ t : Nat, t < (nedelec_3d_ndofs d - 0).toNat →
      ¬ (env.svd (create_nedelec_3d_space_wcoeffs env d)).singularValues.coeff (0 + (t : Int))
        < tol)
    (h2 : ∀ t : Nat,
      t < ((env.svd (create_nedelec_3d_space_wcoeffs env d)).singularValues.size
            - nedelec_3d_ndofs d).toNat →
      ¬ (env.svd (create_nedelec_3d_space_wcoeffs env d)).singularValues.coeff
          (nedelec_3d_ndofs d + (t : Int)) > tol) :
    create_nedelec_3d_space env d
      = Except.ok ((env.svd (create_nedelec_3d_space_wcoeffs env d)).matrixV.transpose.topRows
          (nedelec_3d_ndofs d)) := by
  unfold create_nedelec_3d_space
  dsimp only
  have e1 : forLoopE 0 (nedelec_3d_ndofs d) (fun i =>
      if (env.svd (create_nedelec_3d_space_wcoeffs env d)).singularValues.coeff i < tol then
        Except.error (Exn.runtime_error "Error in Nedelec3D space")
      else Except.ok ()) = Except.ok () := by
    unfold forLoopE
    rw [loopE_ok_iff]
    intro t ht
    rw [if_neg (h1 t ht)]
  have e2 : forLoopE (nedelec_3d_ndofs d)
      (env.svd (create_nedelec_3d_space_wcoeffs env d)).singularValues.size (fun i =>
      if (env.svd (create_nedelec_3d_space_wcoeffs env d)).singularValues.coeff i > tol then
        Except.error (Exn.runtime_error "Error in Nedelec3D space")
      else Except.ok ()) = Except.ok () := by
    unfold forLoopE
    rw [loopE_ok_iff]
    intro t ht
    rw [if_neg (h2 t ht)]
  rw [e1]
  dsimp only
  rw [e2]

/-- The failure of `create_nedelec_3d_space` when one of the check loops meets an offending
singular value. -/
theorem create_nedelec_3d_space_error (env : Collaborators) (d : Int)
    (h : (∃ t : Nat, t < (nedelec_3d_ndofs d - 0).toNat ∧
        (env.svd (create_nedelec_3d_space_wcoeffs env d)).singularValues.coeff (0 + (t : Int))
          < tol)
      ∨ (∃ t : Nat,
        t < ((env.svd (create_nedelec_3d_space_wcoeffs env d)).singularValues.size
              - nedelec_3d_ndofs d).toNat ∧
        (env.svd (create_nedelec_3d_space_wcoeffs env d)).singularValues.coeff
          (nedelec_3d_ndofs d + (t : Int)) > tol)) :
    create_nedelec_3d_space env d
      = Except.error (Exn.runtime_error "Error in Nedelec3D space") := by
  unfold create_nedelec_3d_space
  dsimp only
  have b1 := loopE_ok_or_error (fun i =>
      if (env.svd (create_nedelec_3d_space_wcoeffs env d)).singularValues.coeff i < tol then
        Except.error (Exn.runtime_error "Error in Nedelec3D space")
      else Except.ok ()) (Exn.runtime_error "Error in Nedelec3D space")
      (fun i => by by_cases hc :
        (env.svd (create_nedelec_3d_space_wcoeffs env d)).singularValues.coeff i < tol
                   <;> simp [hc]) 0 (nedelec_3d_ndofs d - 0).toNat
  have b2 := loopE_ok_or_error (fun i =>
      if (env.svd (create_nedelec_3d_space_wcoeffs env d)).singularValues.coeff i > tol then
        Except.error (Exn.runtime_error "Error in Nedelec3D space")
      else Except.ok ()) (Exn.runtime_error "Error in Nedelec3D space")
      (fun i => by by_cases hc :
        (env.svd (create_nedelec_3d_space_wcoeffs env d)).singularValues.coeff i > tol
                   <;> simp [hc]) (nedelec_3d_ndofs d)
      ((env.svd (create_nedelec_3d_space_wcoeffs env d)).singularValues.size
        - nedelec_3d_ndofs d).toNat
  unfold forLoopE
  rcases b1 with b1 | b1
  · rw [b1]
    dsimp only
    rcases b2 with b2 | b2
    · exfalso
      rw [loopE_ok_iff] at b1 b2
      rcases h with ⟨t, ht, hlt⟩ | ⟨t, ht, hgt⟩
      · have := b1 t ht
        rw [if_pos hlt] at this
        cases this
      · have := b2 t ht
        rw [if_pos hgt] at this
        cases this
    · rw [b2]
  · rw [b1]

theorem nedelec_3d_ndofs_ge_six (d : Int) (hd : 0 ≤ d) : 6 ≤ nedelec_3d_ndofs d := by
  have hi := two_mul_tdiv_interior d hd
  have hnn : 0 ≤ (d - 1) * d * (d + 1) := by
    rcases eq_or_lt_of_le hd with h0 | hpos
    · rw [← h0]; decide
    · exact mul_nonneg (mul_nonneg (by omega) hd) (by omega)
  have hprod : 0 ≤ d * (d + 1) := mul_nonneg hd (by omega)
  unfold nedelec_3d_ndofs
  have e : 4 * d * (d + 1) = 4 * (d * (d + 1)) := by ring
  rw [e]
  omega

/-- C6, as the code has it. For every degree `d ≥ 0` and every non-increasing sequence `s` of
singular values with at least `ndofs` entries, `create_nedelec_3d_space` fails with the
internal-consistency error exactly when `s[ndofs-1] < 1e-12` or index `ndofs` exists and
`s[ndofs] > 1e-12`; otherwise it returns the top `ndofs` rows of `Vᵗ`. An entry equal to the
tolerance on either side of the gap is accepted. -/
theorem rank_gap_check (env : Collaborators) (d : Int) (s : DVec) (hd : 0 ≤ d)
    (hs : (env.svd (create_nedelec_3d_space_wcoeffs env d)).singularValues = s)
    (hsorted : ∀ i j : Int, 0 ≤ i → i ≤ j → j < s.size → s.coeff j ≤ s.coeff i)
    (hlen : nedelec_3d_ndofs d ≤ s.size) :
    (create_nedelec_3d_space env d = Except.error (Exn.runtime_error "Error in Nedelec3D space")
      ↔ (s.coeff (nedelec_3d_ndofs d - 1) < tol
          ∨ (nedelec_3d_ndofs d < s.size ∧ s.coeff (nedelec_3d_ndofs d) > tol)))
    ∧ (¬ (s.coeff (nedelec_3d_ndofs d - 1) < tol
          ∨ (nedelec_3d_ndofs d < s.size ∧ s.coeff (nedelec_3d_ndofs d) > tol))
      → create_nedelec_3d_space env d
          = Except.ok ((env.svd (create_nedelec_3d_space_wcoeffs env d)).matrixV.transpose.topRows
              (nedelec_3d_ndofs d))) := by
  have h6 := nedelec_3d_ndofs_ge_six d hd
  have hok : ¬ (s.coeff (nedelec_3d_ndofs d - 1) < tol
          ∨ (nedelec_3d_ndofs d < s.size ∧ s.coeff (nedelec_3d_ndofs d) > tol))
      → create_nedelec_3d_space env d
          = Except.ok ((env.svd (create_nedelec_3d_space_wcoeffs env d)).matrixV.transpose.topRows
              (nedelec_3d_ndofs d)) := by
    intro hn
    push_neg at hn
    obtain ⟨hlo, hhi⟩ := hn
    apply create_nedelec_3d_space_ok
    · intro t ht
      rw [hs]
      have hle := hsorted (0 + (t : Int)) (nedelec_3d_ndofs d - 1) (by omega) (by omega) (by omega)
      exact not_lt.mpr (le_trans hlo hle)
    · intro t ht
      rw [hs] at ht ⊢
      have hlt : nedelec_3d_ndofs d < s.size := by omega
      have hle := hsorted (nedelec_3d_ndofs d) (nedelec_3d_ndofs d + (t : Int)) (by omega)
        (by omega) (by omega)
      exact not_lt.mpr (le_trans hle (hhi hlt))
  refine ⟨⟨?_, ?_⟩, hok⟩
  · intro herr
    by_contra hn
    rw [hok hn] at herr
    cases herr
  · intro hc
    apply create_nedelec_3d_space_error
    rw [hs]
    rcases hc with hlo | ⟨hlt, hhi⟩
    · left
      refine ⟨(nedelec_3d_ndofs d - 1).toNat, by omega, ?_⟩
      have e : (0 : Int) + ((nedelec_3d_ndofs d - 1).toNat : Int) = nedelec_3d_ndofs d - 1 := by
        omega
      rw [e]
      exact hlo
    · right
      refine ⟨0, by omega, ?_⟩
      simpa using hhi

theorem tol_le_one : tol ≤ 1 := by
  unfold tol
  norm_num

theorem sample_singular_values_sorted (i j : Int) (_hi : 0 ≤ i) (hij : i ≤ j) (hj : j < 6) :
    (if j = 5 then tol else 1) ≤ (if i = 5 then tol else 1) := by
  by_cases h5 : j = 5
  · rw [if_pos h5]
    split
    · exact le_refl _
    · exact tol_le_one
  · have hi5 : i ≠ 5 := by omega
    rw [if_neg h5, if_neg hi5]

/-- C6 witness: degree 0 with the concrete collaborators. -/
theorem rank_gap_check_witness :
    create_nedelec_3d_space sample_env 0
      = Except.ok ((sample_env.svd (create_nedelec_3d_space_wcoeffs sample_env 0)
          ).matrixV.transpose.topRows (nedelec_3d_ndofs 0)) :=
  (rank_gap_check sample_env 0 ⟨6, fun i => if i = 5 then tol else 1⟩ (by decide) rfl
    (fun i j hi hij hj => sample_singular_values_sorted i j hi hij hj)
    (by decide)).2
    (by
      have h0 : nedelec_3d_ndofs 0 = 6 := by decide
      rw [h0]
      simp)

/-- C6 counterexample: the singular values `1, 1, 1, 1, 1, 1e-12` at degree 0 (`ndofs = 6`) are
non-increasing and violate the strict gap, since `s[5] > 1e-12` does not hold, yet
`create_nedelec_3d_space` does not fail. -/
theorem rank_gap_check_accepts_tolerance :
    (sample_env.svd (create_nedelec_3d_space_wcoeffs sample_env 0)).singularValues.size = 6
    ∧ nedelec_3d_ndofs 0 = 6
    ∧ (∀ i j : Int, 0 ≤ i → i ≤ j → j < 6 →
        (sample_env.svd (create_nedelec_3d_space_wcoeffs sample_env 0)).singularValues.coeff j
        ≤ (sample_env.svd (create_nedelec_3d_space_wcoeffs sample_env 0)).singularValues.coeff i)
    ∧ ¬ ((sample_env.svd (create_nedelec_3d_space_wcoeffs sample_env 0)).singularValues.coeff
          (nedelec_3d_ndofs 0 - 1) > tol)
    ∧ create_nedelec_3d_space sample_env 0
        ≠ Except.error (Exn.runtime_error "Error in Nedelec3D space") := by
  have h0 : nedelec_3d_ndofs 0 = 6 := by decide
  refine ⟨rfl, h0, fun i j hi hij hj => sample_singular_values_sorted i j hi hij hj, ?_, ?_⟩
  · rw [h0]
    show ¬ ((if (6 : Int) - 1 = 5 then tol else 1) > tol)
    simp
  · have hok := create_nedelec_3d_space_ok sample_env 0
      (by
        intro t _
        show ¬ ((if (0 : Int) + (t : Int) = 5 then tol else 1) < tol)
        split
        · exact lt_irrefl _
        · exact not_lt.mpr tol_le_one)
      (by
        intro t ht
        rw [h0] at ht
        exact absurd ht (by simp [sample_env]))
    rw [hok]
    intro hcon
    cases hcon

/-! ## `Nedelec::tabulate` -/

theorem tabulate_one_rows (coeffs : DMat) (tdim psize : Int) (pts P : DMat) :
    (Nedelec.tabulate_one coeffs tdim psize pts P).rows = pts.rows := by
  unfold Nedelec.tabulate_one
  dsimp only
  rw [forLoop_rows]
  · rfl
  · intro j w
    rfl

theorem tabulate_one_cols (coeffs : DMat) (tdim psize : Int) (pts P : DMat) :
    (Nedelec.tabulate_one coeffs tdim psize pts P).cols = coeffs.rows * tdim := by
  unfold Nedelec.tabulate_one
  dsimp only
  rw [forLoop_cols]
  · rfl
  · intro j w
    rfl

/-- After `n` rounds of the component loop of `Nedelec::tabulate`, the blocks of the components
`j < n` hold the products. -/
theorem tabulate_loop_coeff (coeffs : DMat) (psize : Int) (pts P init : DMat) (n : Nat)
    (r i : Int) (j : Nat) (hj : j < n) (hr0 : 0 ≤ r) (hr : r < pts.rows)
    (hi0 : 0 ≤ i) (hi : i < coeffs.rows) :
    (loopN (fun (j : Int) (d : DMat) =>
        d.setBlock 0 (coeffs.rows * j) pts.rows coeffs.rows
          (P.mul (coeffs.block 0 (psize * j) coeffs.rows psize).transpose)) n init).coeff r
        (coeffs.rows * (j : Int) + i)
      = ∑ q ∈ Finset.range P.cols.toNat,
          P.coeff r (q : Int) * coeffs.coeff i (psize * (j : Int) + (q : Int)) := by
  induction n with
  | zero => exact absurd hj (Nat.not_lt_zero j)
  | succ m ih =>
    unfold loopN
    rcases Nat.lt_succ_iff_lt_or_eq.mp hj with hlt | heq
    · have hstep : coeffs.rows * ((j : Int) + 1) ≤ coeffs.rows * (m : Int) :=
        mul_le_mul_of_nonneg_left (by exact_mod_cast hlt) (by omega)
      have hout : ¬ ((0 : Int) ≤ r ∧ r < 0 + pts.rows
          ∧ coeffs.rows * (m : Int) ≤ coeffs.rows * (j : Int) + i
          ∧ coeffs.rows * (j : Int) + i < coeffs.rows * (m : Int) + coeffs.rows) := by
        intro hc
        have h3 := hc.2.2.1
        have e : coeffs.rows * ((j : Int) + 1) = coeffs.rows * (j : Int) + coeffs.rows := by ring
        omega
      show (DMat.setBlock _ 0 (coeffs.rows * (m : Int)) pts.rows coeffs.rows _).coeff r
        (coeffs.rows * (j : Int) + i) = _
      unfold DMat.setBlock
      dsimp only
      rw [if_neg hout]
      exact ih hlt
    · subst heq
      have hin : (0 : Int) ≤ r ∧ r < 0 + pts.rows
          ∧ coeffs.rows * (j : Int) ≤ coeffs.rows * (j : Int) + i
          ∧ coeffs.rows * (j : Int) + i < coeffs.rows * (j : Int) + coeffs.rows := by
        refine ⟨hr0, by omega, by omega, by omega⟩
      show (DMat.setBlock _ 0 (coeffs.rows * (j : Int)) pts.rows coeffs.rows _).coeff r
        (coeffs.rows * (j : Int) + i) = _
      unfold DMat.setBlock
      dsimp only
      rw [if_pos hin]
      unfold DMat.mul DMat.transpose DMat.block
      dsimp only
      apply Finset.sum_congr rfl
      intro q _
      have e1 : coeffs.rows * (j : Int) + i - coeffs.rows * (j : Int) = i := by ring
      rw [e1, zero_add, sub_zero]

theorem tabulate_one_coeff (coeffs : DMat) (tdim psize : Int) (pts P : DMat)
    (r i j : Int) (hj0 : 0 ≤ j) (hj : j < tdim) (hr0 : 0 ≤ r) (hr : r < pts.rows)
    (hi0 : 0 ≤ i) (hi : i < coeffs.rows) :
    (Nedelec.tabulate_one coeffs tdim psize pts P).coeff r (coeffs.rows * j + i)
      = ∑ q ∈ Finset.range P.cols.toNat,
          P.coeff r (q : Int) * coeffs.coeff i (psize * j + (q : Int)) := by
  obtain ⟨jn, rfl⟩ := Int.eq_ofNat_of_zero_le hj0
  unfold Nedelec.tabulate_one forLoop
  dsimp only
  exact tabulate_loop_coeff coeffs psize pts P _ tdim.toNat r i jn (by omega) hr0 hr hi0 hi

/-- C2. For a point set with `tdim` columns and a tabulator whose matrices share the column
count `psize`, `Nedelec::tabulate` returns one matrix per tabulated matrix, in the same order;
matrix `p` has `pts.rows()` rows and `ndofs * tdim` columns, and its coefficient at point `r`,
component `j`, basis index `i` is `∑_{q < psize} P_p(r, q) * _coeffs(i, psize * j + q)`. -/
theorem nedelec_tabulate_blocks (env : Collaborators) (self : FiniteElement) (nderiv : Int)
    (pts : DMat) (tabs : List DMat) (psize : Int)
    (htabs : env.tabulate self.cell_type (self.degree + 1) nderiv pts = tabs)
    (hcols : pts.cols = env.topological_dimension self.cell_type)
    (hne : tabs ≠ [])
    (hshape : ∀ P ∈ tabs, P.rows = pts.rows ∧ P.cols = psize) :
    ∃ result : List DMat,
      Nedelec.tabulate env self nderiv pts = Except.ok result
      ∧ result.length = tabs.length
      ∧ ∀ p : Nat, p < tabs.length →
          ∃ R P : DMat, result[p]? = some R ∧ tabs[p]? = some P
            ∧ R.rows = pts.rows
            ∧ R.cols = self.coeffs.rows * env.topological_dimension self.cell_type
            ∧ ∀ r j i : Int, 0 ≤ r → r < pts.rows →
                0 ≤ j → j < env.topological_dimension self.cell_type →
                0 ≤ i → i < self.coeffs.rows →
                R.coeff r (self.coeffs.rows * j + i)
                  = ∑ q ∈ Finset.range psize.toNat,
                      P.coeff r (q : Int) * self.coeffs.coeff i (psize * j + (q : Int)) := by
  have hfirst : (first tabs).cols = psize := by
    cases tabs with
    | nil => exact absurd rfl hne
    | cons P0 rest => exact (hshape P0 (List.mem_cons_self _ _)).2
  refine ⟨tabs.map (Nedelec.tabulate_one self.coeffs
      (env.topological_dimension self.cell_type) psize pts), ?_, ?_, ?_⟩
  · unfold Nedelec.tabulate
    dsimp only
    rw [if_neg (not_not.mpr hcols), htabs, hfirst]
  · exact List.length_map _ _
  · intro p hp
    refine ⟨Nedelec.tabulate_one self.coeffs (env.topological_dimension self.cell_type) psize
      pts (tabs.get ⟨p, hp⟩), tabs.get ⟨p, hp⟩, ?_, ?_, ?_, ?_, ?_⟩
    · rw [List.getElem?_map, List.getElem?_eq_getElem hp]
      rfl
    · rw [List.getElem?_eq_getElem hp]
      rfl
    · exact tabulate_one_rows _ _ _ _ _
    · exact tabulate_one_cols _ _ _ _ _
    · intro r j i hr0 hr hj0 hj hi0 hi
      rw [tabulate_one_coeff _ _ _ _ _ r i j hj0 hj hr0 hr hi0 hi]
      rw [(hshape _ (List.get_mem tabs p hp)).2]

/-- C2 witness: the lowest-order triangle element tabulated at the centroid. -/
theorem nedelec_tabulate_blocks_witness :
    ∃ result : List DMat,
      Nedelec.tabulate sample_env sample_element 0 sample_points = Except.ok result
      ∧ result.length = 1 :=
  (nedelec_tabulate_blocks sample_env sample_element 0 sample_points
      (sample_tabulate CellType.triangle 1 0 sample_points) 3 rfl rfl
      (List.cons_ne_nil _ _)
      (fun P hP => by
        rw [List.mem_singleton.mp hP]
        exact ⟨rfl, rfl⟩)).imp
    (fun _ h => ⟨h.1, h.2.1⟩)

/-- C3. `Nedelec::tabulate` fails with the dimension-mismatch error whenever the column count
of the points differs from the topological dimension of the cell, whatever the polynomial
tabulator would return, and produces no result; when the column count equals the topological
dimension it returns a result instead. -/
theorem nedelec_tabulate_dimension_check (env : Collaborators) (self : FiniteElement)
    (nderiv : Int) (pts : DMat) :
    (pts.cols ≠ env.topological_dimension self.cell_type →
      ∀ tab : CellType → Int → Int → DMat → List DMat,
        Nedelec.tabulate { env with tabulate := tab } self nderiv pts
          = Except.error
              (Exn.runtime_error "Point dimension does not match element dimension"))
    ∧ (pts.cols = env.topological_dimension self.cell_type →
      ∃ result : List DMat, Nedelec.tabulate env self nderiv pts = Except.ok result) := by
  constructor
  · intro hne tab
    unfold Nedelec.tabulate
    dsimp only
    rw [if_pos hne]
  · intro heq
    unfold Nedelec.tabulate
    dsimp only
    rw [if_neg (not_not.mpr heq)]
    exact ⟨_, rfl⟩

/-- C3 witness: three-coordinate points are rejected by a triangle element, two-coordinate
points are accepted. -/
theorem nedelec_tabulate_dimension_check_witness :
    Nedelec.tabulate { sample_env with tabulate := fun _ _ _ _ => [] } sample_element 0
        sample_points_3d
      = Except.error (Exn.runtime_error "Point dimension does not match element dimension")
    ∧ ∃ result : List DMat,
        Nedelec.tabulate sample_env sample_element 0 sample_points = Except.ok result :=
  ⟨(nedelec_tabulate_dimension_check sample_env sample_element 0 sample_points_3d).1
      (by decide) (fun _ _ _ _ => []),
    (nedelec_tabulate_dimension_check sample_env sample_element 0 sample_points).2 rfl⟩

/-! ## Constructors -/

/-- C7. `CrouzeixRaviart::CrouzeixRaviart` fails with the degree error for every `k ≠ 1` and
every cell type, whatever the collaborators that compute points and matrices would return; for
`k = 1` the check passes and the outcome is that of the dual-basis solver applied to the
identity coefficients and the tabulation at the facet points. -/
theorem crouzeix_raviart_degree_check (env : Collaborators) (celltype : CellType) (k : Int) :
    (k ≠ 1 →
      CrouzeixRaviart env celltype k
        = Except.error (Exn.runtime_error "Only defined for degree 1"))
    ∧ CrouzeixRaviart env celltype 1
        = (env.apply_dualmat_to_basis
            (DMat.identity
              (((env.topology celltype).getD
                  (env.topological_dimension celltype - 1).toNat []).length : Int)
              (((env.topology celltype).getD
                  (env.topological_dimension celltype - 1).toNat []).length : Int))
            (first (env.tabulate celltype 1 0 (CrouzeixRaviart.pts env celltype)))).map
          (fun c => FiniteElement.mk celltype 1 (some 1) c) := by
  constructor
  · intro hk
    unfold CrouzeixRaviart
    rw [if_pos hk]
  · unfold CrouzeixRaviart
    rw [if_neg (by decide)]

/-- C7 witness: degree 2 on the triangle is rejected. -/
theorem crouzeix_raviart_degree_check_witness :
    CrouzeixRaviart sample_env CellType.triangle 2
      = Except.error (Exn.runtime_error "Only defined for degree 1") :=
  (crouzeix_raviart_degree_check sample_env CellType.triangle 2).1 (by decide)

/-- C8. `Nedelec::Nedelec` fails with the invalid-cell-type error for every cell shape other
than triangle and tetrahedron, whatever the dual-basis solver would return. For the triangle
the outcome is that of the solver applied to the matrices of the 2D builders; for the
tetrahedron it is that of the solver applied to the matrices of the 3D builders, reached once
`create_nedelec_3d_space` has returned its matrix. -/
theorem nedelec_celltype_check (env : Collaborators) (k : Int) :
    (∀ celltype : CellType, celltype ≠ CellType.triangle → celltype ≠ CellType.tetrahedron →
      ∀ solver : DMat → DMat → Except Exn DMat,
        Nedelec { env with apply_dualmat_to_basis := solver } celltype k
          = Except.error (Exn.runtime_error "Invalid celltype in Nedelec"))
    ∧ Nedelec env CellType.triangle k
        = (env.apply_dualmat_to_basis (create_nedelec_2d_space env (k - 1))
            (create_nedelec_2d_dual env (k - 1))).map
          (fun c => FiniteElement.mk CellType.triangle (k - 1) none c)
    ∧ Nedelec env CellType.tetrahedron k
        = (create_nedelec_3d_space env (k - 1)).bind (fun wcoeffs =>
            (env.apply_dualmat_to_basis wcoeffs (create_nedelec_3d_dual env (k - 1))).map
              (fun c => FiniteElement.mk CellType.tetrahedron (k - 1) none c)) := by
  refine ⟨?_, rfl, ?_⟩
  · intro celltype h2 h3 solver
    cases celltype with
    | triangle => exact absurd rfl h2
    | tetrahedron => exact absurd rfl h3
    | interval => rfl
    | other n => rfl
  · unfold Nedelec
    dsimp only
    cases create_nedelec_3d_space env (k - 1) <;> rfl

/-- C8 witness: the interval is rejected. -/
theorem nedelec_celltype_check_witness :
    Nedelec { sample_env with apply_dualmat_to_basis := fun _ _ => Except.ok (DMat.zero 0 0) }
        CellType.interval 1
      = Except.error (Exn.runtime_error "Invalid celltype in Nedelec") :=
  (nedelec_celltype_check sample_env 1).1 CellType.interval (by decide) (by decide)
    (fun _ _ => Except.ok (DMat.zero 0 0))

/-! ## Triangle: the rotational rows of the spanning matrix -/

/-- The inner loop over `k` writes `f0 k` at column `k` and `f1 k` at column `k + psize` of
row `ρ`, for every `k` already visited. -/
theorem pair_loop_written (ρ psize : Int) (f0 f1 : Int → ℚ) (w : DMat) (n : Nat)
    (hn : (n : Int) ≤ psize) (k : Nat) (hk : k < n) :
    (loopN (fun (k : Int) (w : DMat) =>
        (w.set ρ k (f0 k)).set ρ (k + psize) (f1 k)) n w).coeff ρ (k : Int) = f0 (k : Int)
    ∧ (loopN (fun (k : Int) (w : DMat) =>
        (w.set ρ k (f0 k)).set ρ (k + psize) (f1 k)) n w).coeff ρ ((k : Int) + psize)
        = f1 (k : Int) := by
  induction n with
  | zero => exact absurd hk (Nat.not_lt_zero k)
  | succ m ih =>
    unfold loopN
    unfold DMat.set
    dsimp only
    rcases Nat.lt_succ_iff_lt_or_eq.mp hk with hlt | heq
    · have hm : (m : Int) ≤ psize := by push_cast at hn; omega
      have hkm : (k : Int) < (m : Int) := by exact_mod_cast hlt
      have ihk := ih hm hlt
      have c1 : ¬ (ρ = ρ ∧ (k : Int) = (m : Int) + psize) := by
        intro hc; push_cast at hn; omega
      have c2 : ¬ (ρ = ρ ∧ (k : Int) = (m : Int)) := by
        intro hc; omega
      have c3 : ¬ (ρ = ρ ∧ (k : Int) + psize = (m : Int) + psize) := by
        intro hc; omega
      have c4 : ¬ (ρ = ρ ∧ (k : Int) + psize = (m : Int)) := by
        intro hc; push_cast at hn; omega
      rw [if_neg c1, if_neg c2, if_neg c3, if_neg c4]
      exact ihk
    · subst heq
      have c1 : ¬ (ρ = ρ ∧ (k : Int) = (k : Int) + psize) := by
        intro hc; push_cast at hn; omega
      have c2 : ρ = ρ ∧ (k : Int) = (k : Int) := ⟨rfl, rfl⟩
      have c3 : ρ = ρ ∧ (k : Int) + psize = (k : Int) + psize := ⟨rfl, rfl⟩
      rw [if_neg c1, if_pos c2, if_pos c3]
      exact ⟨rfl, rfl⟩

/-- The inner loop over `k` leaves every row other than `ρ` untouched. -/
theorem pair_loop_other_row (ρ psize : Int) (f0 f1 : Int → ℚ) (w : DMat) (n : Nat)
    (a b : Int) (ha : a ≠ ρ) :
    (loopN (fun (k : Int) (w : DMat) =>
        (w.set ρ k (f0 k)).set ρ (k + psize) (f1 k)) n w).coeff a b = w.coeff a b := by
  induction n with
  | zero => rfl
  | succ m ih =>
    unfold loopN
    unfold DMat.set
    dsimp only
    rw [if_neg (fun hc => ha hc.1), if_neg (fun hc => ha hc.1)]
    exact ih

/-- The double loop of `create_nedelec_2d_space`: after the rows `i < n` have been visited,
row `r0 + i` holds `f0 i k` at column `k` and `f1 i k` at column `k + psize`. -/
theorem rotational_loop_written (r0 psize : Int) (f0 f1 : Int → Int → ℚ) (w : DMat) (n : Nat)
    (i : Nat) (hi : i < n) (k : Int) (hk0 : 0 ≤ k) (hk : k < psize) :
    (loopN (fun (i : Int) (w : DMat) =>
        forLoop psize (fun (k : Int) (w : DMat) =>
          (w.set (r0 + i) k (f0 i k)).set (r0 + i) (k + psize) (f1 i k)) w) n w).coeff
        (r0 + (i : Int)) k = f0 (i : Int) k
    ∧ (loopN (fun (i : Int) (w : DMat) =>
        forLoop psize (fun (k : Int) (w : DMat) =>
          (w.set (r0 + i) k (f0 i k)).set (r0 + i) (k + psize) (f1 i k)) w) n w).coeff
        (r0 + (i : Int)) (k + psize) = f1 (i : Int) k := by
  induction n with
  | zero => exact absurd hi (Nat.not_lt_zero i)
  | succ m ih =>
    unfold loopN
    rcases Nat.lt_succ_iff_lt_or_eq.mp hi with hlt | heq
    · have hne : r0 + (i : Int) ≠ r0 + (m : Int) := by
        have : (i : Int) < (m : Int) := by exact_mod_cast hlt
        omega
      unfold forLoop
      rw [pair_loop_other_row _ _ _ _ _ _ _ _ hne, pair_loop_other_row _ _ _ _ _ _ _ _ hne]
      exact ih hlt
    · subst heq
      obtain ⟨kn, rfl⟩ := Int.eq_ofNat_of_zero_le hk0
      unfold forLoop
      exact pair_loop_written (r0 + (i : Int)) psize (f0 i) (f1 i) _ psize.toNat (by omega) kn
        (by omega)

/-- The matrix of `create_nedelec_2d_space` as the double loop applied to the matrix holding the
two identity blocks. -/
theorem create_nedelec_2d_space_loop (env : Collaborators) (d : Int) (Qpts : DMat) (Qwts : DVec)
    (P : DMat) (hQ : env.make_quadrature 2 (2 * d + 2) = (Qpts, Qwts))
    (hP : first (env.tabulate CellType.triangle (d + 1) 0 Qpts) = P) :
    create_nedelec_2d_space env d = loopN (fun (i : Int) (w : DMat) =>
        forLoop P.cols (fun (k : Int) (w : DMat) =>
          (w.set (2 * Int.tdiv ((d + 1) * (d + 2)) 2 + i) k
            ((((Qwts.cmul (P.col (Int.tdiv ((d + 1) * d) 2 + i))).cmul (Qpts.col 1)).cmul
              (P.col k)).sum)).set (2 * Int.tdiv ((d + 1) * (d + 2)) 2 + i) (k + P.cols)
            ((((Qwts.neg.cmul (P.col (Int.tdiv ((d + 1) * d) 2 + i))).cmul (Qpts.col 0)).cmul
              (P.col k)).sum)) w) (d + 1).toNat
      (((DMat.zero (Int.tdiv ((d + 1) * (d + 2)) 2 * 2 + (d + 1)) (P.cols * 2)).setBlock 0 0
        (Int.tdiv ((d + 1) * (d + 2)) 2) (Int.tdiv ((d + 1) * (d + 2)) 2)
        (DMat.identity (Int.tdiv ((d + 1) * (d + 2)) 2) (Int.tdiv ((d + 1) * (d + 2)) 2))).setBlock
      (Int.tdiv ((d + 1) * (d + 2)) 2) P.cols
      (Int.tdiv ((d + 1) * (d + 2)) 2) (Int.tdiv ((d + 1) * (d + 2)) 2)
      (DMat.identity (Int.tdiv ((d + 1) * (d + 2)) 2) (Int.tdiv ((d + 1) * (d + 2)) 2))) := by
  unfold create_nedelec_2d_space forLoop
  dsimp only
  rw [hQ]
  dsimp only
  rw [hP]

/-- The component-0 entry of a rotational row, as the sum the code evaluates. -/
theorem create_nedelec_2d_space_component0 (env : Collaborators) (d : Int) (Qpts : DMat)
    (Qwts : DVec) (P : DMat) (hQ : env.make_quadrature 2 (2 * d + 2) = (Qpts, Qwts))
    (hP : first (env.tabulate CellType.triangle (d + 1) 0 Qpts) = P)
    (i : Nat) (k : Int) (hi : (i : Int) < d + 1) (hk0 : 0 ≤ k) (hk : k < P.cols) :
    (create_nedelec_2d_space env d).coeff (2 * Int.tdiv ((d + 1) * (d + 2)) 2 + (i : Int)) k
      = (((Qwts.cmul (P.col (Int.tdiv ((d + 1) * d) 2 + (i : Int)))).cmul (Qpts.col 1)).cmul
          (P.col k)).sum := by
  rw [create_nedelec_2d_space_loop env d Qpts Qwts P hQ hP]
  exact (rotational_loop_written (2 * Int.tdiv ((d + 1) * (d + 2)) 2) P.cols
    (fun i k => (((Qwts.cmul (P.col (Int.tdiv ((d + 1) * d) 2 + i))).cmul (Qpts.col 1)).cmul
      (P.col k)).sum)
    (fun i k => (((Qwts.neg.cmul (P.col (Int.tdiv ((d + 1) * d) 2 + i))).cmul (Qpts.col 0)).cmul
      (P.col k)).sum) _ (d + 1).toNat i (by omega) k hk0 hk).1

/-- C10, as the code has it. For every degree `d`, every `0 ≤ i < ns = d + 1` and every
polynomial index `0 ≤ k < psize`, row `2 nv + i` of the matrix of `create_nedelec_2d_space` holds
the quadrature expansion of `p = φ_(ns0 + i)` multiplied by `(y, -x)`: the component-0 entry is
`∑_q w_q p(x_q) y_q φ_k(x_q)` and the component-1 entry is `∑_q w_q p(x_q) (-x_q) φ_k(x_q)`,
with the quadrature rule requested at degree `2 d + 2`. -/
theorem nedelec_2d_rotational_rows (env : Collaborators) (d : Int) (Qpts : DMat) (Qwts : DVec)
    (P : DMat) (hQ : env.make_quadrature 2 (2 * d + 2) = (Qpts, Qwts))
    (hP : first (env.tabulate CellType.triangle (d + 1) 0 Qpts) = P)
    (i k : Int) (hi0 : 0 ≤ i) (hi : i < d + 1) (hk0 : 0 ≤ k) (hk : k < P.cols) :
    (create_nedelec_2d_space env d).coeff (2 * Int.tdiv ((d + 1) * (d + 2)) 2 + i) k
      = ∑ q ∈ Finset.range Qwts.size.toNat,
          Qwts.coeff (q : Int) * P.coeff (q : Int) (Int.tdiv ((d + 1) * d) 2 + i)
            * Qpts.coeff (q : Int) 1 * P.coeff (q : Int) k
    ∧ (create_nedelec_2d_space env d).coeff (2 * Int.tdiv ((d + 1) * (d + 2)) 2 + i)
        (P.cols + k)
      = ∑ q ∈ Finset.range Qwts.size.toNat,
          Qwts.coeff (q : Int) * P.coeff (q : Int) (Int.tdiv ((d + 1) * d) 2 + i)
            * (- Qpts.coeff (q : Int) 0) * P.coeff (q : Int) k := by
  obtain ⟨n, rfl⟩ := Int.eq_ofNat_of_zero_le hi0
  have hloop := rotational_loop_written (2 * Int.tdiv ((d + 1) * (d + 2)) 2) P.cols
    (fun i k => (((Qwts.cmul (P.col (Int.tdiv ((d + 1) * d) 2 + i))).cmul (Qpts.col 1)).cmul
      (P.col k)).sum)
    (fun i k => (((Qwts.neg.cmul (P.col (Int.tdiv ((d + 1) * d) 2 + i))).cmul (Qpts.col 0)).cmul
      (P.col k)).sum)
    (((DMat.zero (Int.tdiv ((d + 1) * (d + 2)) 2 * 2 + (d + 1)) (P.cols * 2)).setBlock 0 0
        (Int.tdiv ((d + 1) * (d + 2)) 2) (Int.tdiv ((d + 1) * (d + 2)) 2)
        (DMat.identity (Int.tdiv ((d + 1) * (d + 2)) 2) (Int.tdiv ((d + 1) * (d + 2)) 2))).setBlock
      (Int.tdiv ((d + 1) * (d + 2)) 2) P.cols
      (Int.tdiv ((d + 1) * (d + 2)) 2) (Int.tdiv ((d + 1) * (d + 2)) 2)
      (DMat.identity (Int.tdiv ((d + 1) * (d + 2)) 2) (Int.tdiv ((d + 1) * (d + 2)) 2)))
    (d + 1).toNat n (by omega) k hk0 hk
  rw [create_nedelec_2d_space_loop env d Qpts Qwts P hQ hP, add_comm P.cols k]
  refine ⟨hloop.1.trans ?_, hloop.2.trans ?_⟩
  · unfold DVec.sum DVec.cmul DMat.col
    rfl
  · unfold DVec.sum DVec.cmul DVec.neg DMat.col
    dsimp only
    apply Finset.sum_congr rfl
    intro q _
    ring

theorem sample_quadrature_triangle :
    sample_env.make_quadrature 2 (2 * 0 + 2) = (sample_Qpts, sample_Qwts) := rfl

/-- C10 witness: degree 0 with the edge-midpoint rule and the family `1, x, y`. -/
theorem nedelec_2d_rotational_rows_witness :
    (create_nedelec_2d_space sample_env 0).coeff (2 * Int.tdiv ((0 + 1) * (0 + 2)) 2 + 0)
        ((first (sample_tabulate CellType.triangle (0 + 1) 0 sample_Qpts)).cols + 0)
      = ∑ q ∈ Finset.range sample_Qwts.size.toNat,
          sample_Qwts.coeff (q : Int)
            * (first (sample_tabulate CellType.triangle (0 + 1) 0 sample_Qpts)).coeff (q : Int)
                (Int.tdiv ((0 + 1) * 0) 2 + 0)
            * (- sample_Qpts.coeff (q : Int) 0)
            * (first (sample_tabulate CellType.triangle (0 + 1) 0 sample_Qpts)).coeff
                (q : Int) 0 :=
  (nedelec_2d_rotational_rows sample_env 0 sample_Qpts sample_Qwts
    (first (sample_tabulate CellType.triangle (0 + 1) 0 sample_Qpts))
    sample_quadrature_triangle rfl 0 0 (by decide) (by decide) (by decide) (by decide)).2

/-- C10 counterexample: at degree 0, with the edge-midpoint rule and the family `1, x, y`, the
component-0 entry of row `2 nv` at `k = 0` is `1/6`, the quadrature of `+y`, whereas the
expansion of `p · (-y)` is `-1/6`. -/
theorem nedelec_2d_rotational_sign :
    (create_nedelec_2d_space sample_env 0).coeff (2 * Int.tdiv ((0 + 1) * (0 + 2)) 2 + 0) 0
      = 1 / 6
    ∧ (∑ q ∈ Finset.range sample_Qwts.size.toNat,
          sample_Qwts.coeff (q : Int)
            * (first (sample_tabulate CellType.triangle (0 + 1) 0 sample_Qpts)).coeff (q : Int)
                (Int.tdiv ((0 + 1) * 0) 2 + 0)
            * (- sample_Qpts.coeff (q : Int) 1)
            * (first (sample_tabulate CellType.triangle (0 + 1) 0 sample_Qpts)).coeff
                (q : Int) 0) = - (1 / 6)
    ∧ (create_nedelec_2d_space sample_env 0).coeff (2 * Int.tdiv ((0 + 1) * (0 + 2)) 2 + 0) 0
      ≠ ∑ q ∈ Finset.range sample_Qwts.size.toNat,
          sample_Qwts.coeff (q : Int)
            * (first (sample_tabulate CellType.triangle (0 + 1) 0 sample_Qpts)).coeff (q : Int)
                (Int.tdiv ((0 + 1) * 0) 2 + 0)
            * (- sample_Qpts.coeff (q : Int) 1)
            * (first (sample_tabulate CellType.triangle (0 + 1) 0 sample_Qpts)).coeff
                (q : Int) 0 := by
  have hcode : (create_nedelec_2d_space sample_env 0).coeff
      (2 * Int.tdiv ((0 + 1) * (0 + 2)) 2 + 0) 0 = 1 / 6 := by
    have h := create_nedelec_2d_space_component0 sample_env 0 sample_Qpts sample_Qwts
      (first (sample_tabulate CellType.triangle (0 + 1) 0 sample_Qpts))
      sample_quadrature_triangle rfl 0 0 (by decide) (by decide) (by decide)
    rw [Nat.cast_zero] at h
    rw [h]
    simp [DVec.sum, DVec.cmul, DMat.col, sample_Qwts, sample_Qpts, sample_tabulate, first,
      Finset.sum_range_succ]
    norm_num
  have hclaim : (∑ q ∈ Finset.range sample_Qwts.size.toNat,
          sample_Qwts.coeff (q : Int)
            * (first (sample_tabulate CellType.triangle (0 + 1) 0 sample_Qpts)).coeff (q : Int)
                (Int.tdiv ((0 + 1) * 0) 2 + 0)
            * (- sample_Qpts.coeff (q : Int) 1)
            * (first (sample_tabulate CellType.triangle (0 + 1) 0 sample_Qpts)).coeff
                (q : Int) 0) = - (1 / 6) := by
    simp [sample_Qwts, sample_Qpts, sample_tabulate, first, Finset.sum_range_succ]
    norm_num
  refine ⟨hcode, hclaim, ?_⟩
  rw [hcode, hclaim]
  norm_num

/-! ## The dual-basis solver -/

/-- With `_coeffs = Xᵗ · wcoeffs`, the functionals applied to the new basis are the entries of
`D · X`, where `D = dualmat · wcoeffsᵗ`. -/
theorem dualmat_mul_coeffs_transpose (wcoeffs dualmat X : DMat) (hX : X.rows = wcoeffs.rows)
    (k j : Int) :
    (dualmat.mul (X.transpose.mul wcoeffs).transpose).coeff k j
      = ((dualmat.mul wcoeffs.transpose).mul X).coeff k j := by
  unfold DMat.mul DMat.transpose
  dsimp only
  rw [hX]
  simp only [Finset.mul_sum, Finset.sum_mul]
  rw [Finset.sum_comm]
  apply Finset.sum_congr rfl
  intro r _
  apply Finset.sum_congr rfl
  intro q _
  ring

theorem ofMatrix_coeff {n : Nat} (A : Matrix (Fin n) (Fin n) ℚ) (a b : Fin n) :
    (DMat.ofMatrix A).coeff (a.val : Int) (b.val : Int) = A a b := by
  unfold DMat.ofMatrix
  dsimp only
  have h : ((a.val : Int)).toNat < n ∧ ((b.val : Int)).toNat < n := by
    simp only [Int.toNat_ofNat]
    exact ⟨a.isLt, b.isLt⟩
  rw [dif_pos h]
  rfl

/-- The matrix returned by `solve_identity` solves `D · X = I`. -/
theorem solve_identity_spec (D : DMat) (n : Nat) (hrows : D.rows = n) (hcols : D.cols = n)
    (hinv : IsUnit (D.toMatrix n)) :
    ∃ X : DMat, solve_identity D = some X ∧ X.rows = n ∧ X.cols = n
      ∧ ∀ k j : Int, 0 ≤ k → k < n → 0 ≤ j → j < n →
          (D.mul X).coeff k j = if k = j then 1 else 0 := by
  have hn : D.rows.toNat = n := by rw [hrows]; exact Int.toNat_ofNat n
  have hdet : (D.toMatrix n).det ≠ 0 :=
    isUnit_iff_ne_zero.mp ((Matrix.isUnit_iff_isUnit_det _).mp hinv)
  refine ⟨DMat.ofMatrix ((D.toMatrix n).det⁻¹ • (D.toMatrix n).adjugate), ?_, rfl, rfl, ?_⟩
  · unfold solve_identity
    dsimp only
    subst hn
    rw [if_neg hdet]
  · intro k j hk0 hk hj0 hj
    obtain ⟨kn, rfl⟩ := Int.eq_ofNat_of_zero_le hk0
    obtain ⟨jn, rfl⟩ := Int.eq_ofNat_of_zero_le hj0
    have hkn : kn < n := by exact_mod_cast hk
    have hjn : jn < n := by exact_mod_cast hj
    have hprod : D.toMatrix n * ((D.toMatrix n).det⁻¹ • (D.toMatrix n).adjugate) = 1 := by
      rw [Matrix.mul_smul, Matrix.mul_adjugate, smul_smul, inv_mul_cancel₀ hdet, one_smul]
    have hentry := congrFun (congrFun hprod ⟨kn, hkn⟩) ⟨jn, hjn⟩
    rw [Matrix.mul_apply, Matrix.one_apply] at hentry
    show (∑ q ∈ Finset.range D.cols.toNat, D.coeff (kn : Int) (q : Int)
      * (DMat.ofMatrix ((D.toMatrix n).det⁻¹ • (D.toMatrix n).adjugate)).coeff (q : Int)
          (jn : Int)) = _
    rw [hcols, Int.toNat_ofNat, Finset.sum_range]
    have hsum : ∀ q : Fin n, D.coeff (kn : Int) ((q : Nat) : Int)
        * (DMat.ofMatrix ((D.toMatrix n).det⁻¹ • (D.toMatrix n).adjugate)).coeff
            ((q : Nat) : Int) (jn : Int)
        = D.toMatrix n ⟨kn, hkn⟩ q
          * ((D.toMatrix n).det⁻¹ • (D.toMatrix n).adjugate) q ⟨jn, hjn⟩ := by
      intro q
      have hjq := ofMatrix_coeff ((D.toMatrix n).det⁻¹ • (D.toMatrix n).adjugate) q ⟨jn, hjn⟩
      rw [← hjq]
      rfl
    rw [Finset.sum_congr rfl (fun q _ => hsum q), hentry]
    simp [Fin.ext_iff]

/-- C1. For every spanning matrix `wcoeffs` and functional matrix `dualmat` with `n` rows over
the rationals such that `D = dualmat · wcoeffsᵗ` is invertible, `apply_dualmat_to_basis` returns
`_coeffs = Xᵗ · wcoeffs` for a matrix `X` with `D · X = I`, and `dualmat · _coeffsᵗ = I_n`:
functional `k` applied to basis function `j` is `1` if `k = j` and `0` otherwise. -/
theorem dual_basis_duality (wcoeffs dualmat : DMat) (n : Nat)
    (hd : dualmat.rows = n) (hw : wcoeffs.rows = n)
    (hinv : IsUnit ((dualmat.mul wcoeffs.transpose).toMatrix n)) :
    ∃ X : DMat,
      (∀ k j : Int, 0 ≤ k → k < n → 0 ≤ j → j < n →
        ((dualmat.mul wcoeffs.transpose).mul X).coeff k j = if k = j then 1 else 0)
      ∧ apply_dualmat_to_basis wcoeffs dualmat = Except.ok (X.transpose.mul wcoeffs)
      ∧ (X.transpose.mul wcoeffs).rows = n
      ∧ (X.transpose.mul wcoeffs).cols = wcoeffs.cols
      ∧ ∀ k j : Int, 0 ≤ k → k < n → 0 ≤ j → j < n →
          (dualmat.mul (X.transpose.mul wcoeffs).transpose).coeff k j
            = if k = j then 1 else 0 := by
  obtain ⟨X, hsolve, hXr, hXc, hDX⟩ :=
    solve_identity_spec (dualmat.mul wcoeffs.transpose) n hd hw hinv
  refine ⟨X, hDX, ?_, hXc, rfl, ?_⟩
  · unfold apply_dualmat_to_basis
    dsimp only
    rw [hsolve]
  · intro k j hk0 hk hj0 hj
    rw [dualmat_mul_coeffs_transpose wcoeffs dualmat X (hXr.trans hw.symm)]
    exact hDX k j hk0 hk hj0 hj

theorem mul_identity_transpose_toMatrix (T : DMat) (n : Nat) (hcols : T.cols = n) :
    (T.mul (DMat.identity n n).transpose).toMatrix n = T.toMatrix n := by
  ext a b
  unfold DMat.toMatrix DMat.mul DMat.transpose DMat.identity
  dsimp only
  rw [hcols, Int.toNat_ofNat, Finset.sum_range]
  have hterm : ∀ q : Fin n, T.coeff (a.val : Int) ((q : Nat) : Int)
      * (if (b.val : Int) = ((q : Nat) : Int) then (1 : ℚ) else 0)
      = if q = b then T.coeff (a.val : Int) (b.val : Int) else 0 := by
    intro q
    by_cases hqb : q = b
    · subst hqb; simp
    · have hne : ¬ ((b.val : Int) = ((q : Nat) : Int)) := by
        intro hc
        exact hqb (Fin.ext (by exact_mod_cast hc.symm))
      rw [if_neg hne, if_neg hqb, mul_zero]
  rw [Finset.sum_congr rfl (fun q _ => hterm q)]
  simp

/-- C1 witness: the identity as spanning and functional matrix of order two. -/
theorem dual_basis_duality_witness :
    ∃ X : DMat,
      apply_dualmat_to_basis (DMat.identity 2 2) (DMat.identity 2 2)
        = Except.ok (X.transpose.mul (DMat.identity 2 2))
      ∧ ∀ k j : Int, 0 ≤ k → k < 2 → 0 ≤ j → j < 2 →
          ((DMat.identity 2 2).mul (X.transpose.mul (DMat.identity 2 2)).transpose).coeff k j
            = if k = j then 1 else 0 :=
  (dual_basis_duality (DMat.identity 2 2) (DMat.identity 2 2) 2 rfl rfl
    (by
      have h := mul_identity_transpose_toMatrix (DMat.identity ((2 : Nat) : Int) ((2 : Nat) : Int))
        2 rfl
      have h1 : (DMat.identity ((2 : Nat) : Int) ((2 : Nat) : Int)).toMatrix 2 = 1 := by
        ext a b
        simp [DMat.toMatrix, DMat.identity, Matrix.one_apply, Fin.ext_iff]
      rw [h1] at h
      have h2 : ((DMat.identity 2 2).mul (DMat.identity 2 2).transpose).toMatrix 2 = 1 := h
      rw [h2]
      exact isUnit_one)).imp
    (fun _ h => ⟨h.2.1, h.2.2.2.2⟩)

/-- Whenever the degree-1 tabulation `T` at the evaluation points computed by
`CrouzeixRaviart` (`CrouzeixRaviart.pts`) is an invertible square matrix of order `ndofs`, the
constructor (identity spanning coefficients, functional matrix `T`, the dual-basis solver)
returns an element whose basis, tabulated at those points as `T · _coeffsᵗ`, is the identity
matrix. -/
theorem crouzeix_raviart_reproduction (env : Collaborators) (celltype : CellType) (n : Nat)
    (T : DMat) (hsolver : env.apply_dualmat_to_basis = apply_dualmat_to_basis)
    (hn : ((env.topology celltype).getD
        (env.topological_dimension celltype - 1).toNat []).length = n)
    (hT : first (env.tabulate celltype 1 0 (CrouzeixRaviart.pts env celltype)) = T)
    (hrows : T.rows = n) (hcols : T.cols = n) (hinv : IsUnit (T.toMatrix n)) :
    ∃ el : FiniteElement, CrouzeixRaviart env celltype 1 = Except.ok el
      ∧ ∀ k j : Int, 0 ≤ k → k < n → 0 ≤ j → j < n →
          (T.mul el.coeffs.transpose).coeff k j = if k = j then 1 else 0 := by
  have hinv2 : IsUnit ((T.mul (DMat.identity n n).transpose).toMatrix n) := by
    rw [mul_identity_transpose_toMatrix T n hcols]
    exact hinv
  obtain ⟨X, hsolve, hXr, _, hDX⟩ :=
    solve_identity_spec (T.mul (DMat.identity n n).transpose) n hrows rfl hinv2
  refine ⟨FiniteElement.mk celltype 1 (some 1) (X.transpose.mul (DMat.identity n n)), ?_, ?_⟩
  · unfold CrouzeixRaviart
    rw [if_neg (by decide)]
    dsimp only
    rw [hsolver, hn, hT]
    unfold apply_dualmat_to_basis
    dsimp only
    rw [hsolve]
    rfl
  · intro k j hk0 hk hj0 hj
    show (T.mul (X.transpose.mul (DMat.identity n n)).transpose).coeff k j = _
    rw [dualmat_mul_coeffs_transpose (DMat.identity n n) T X hXr]
    exact hDX k j hk0 hk hj0 hj

/-- The tabulation of `1, x, y` at the edge midpoints of the reference triangle has
determinant `1/4`. -/
theorem sample_midpoint_tabulation_det :
    ((first (sample_env.tabulate CellType.triangle 1 0
        (CrouzeixRaviart.pts sample_env CellType.triangle))).toMatrix 3).det = 1 / 4 := by
  rw [Matrix.det_fin_three]
  simp [DMat.toMatrix, first, sample_env, sample_tabulate, CrouzeixRaviart.pts,
    sample_topology, sample_topological_dimension, sample_geometry, DMat.divScalar,
    DMat.addRow, DMat.row, DMat.zero]
  norm_num

/-! ## Tetrahedron: the number of rows removed by the rank reduction -/

theorem create_nedelec_3d_dual_rows (env : Collaborators) (d : Int) :
    (create_nedelec_3d_dual env d).rows = nedelec_3d_ndofs d := by
  unfold create_nedelec_3d_dual
  dsimp only
  split <;> split <;> rfl

/-- C16. For every degree `d ≥ 0` the integer divisions of the tetrahedron formulas are exact,
`ndofs = 6 (d + 1) + 4 d (d + 1) + (d - 1) d (d + 1) / 2 = (d + 1)(d + 3)(d + 4) / 2`, the
unreduced matrix has `(nv + ns) * 3 = (d + 1)(d + 2)(d + 6) / 2` rows, the difference is
`d (d + 1) / 2` (zero at `d = 0`), and this is the number of rows by which a matrix returned by
`create_nedelec_3d_space` is shorter than the unreduced one. -/
theorem nedelec_3d_redundant_rows (env : Collaborators) (d : Int) (hd : 0 ≤ d) :
    Int.tdiv ((d + 1) * (d + 2) * (d + 3)) 6 * 6 = (d + 1) * (d + 2) * (d + 3)
    ∧ Int.tdiv ((d + 1) * (d + 2)) 2 * 2 = (d + 1) * (d + 2)
    ∧ Int.tdiv (d * (d + 1) * (d + 2)) 6 * 6 = d * (d + 1) * (d + 2)
    ∧ Int.tdiv ((d - 1) * d * (d + 1)) 2 * 2 = (d - 1) * d * (d + 1)
    ∧ nedelec_3d_ndofs d
      = 6 * (d + 1) + 4 * d * (d + 1) + Int.tdiv ((d - 1) * d * (d + 1)) 2
    ∧ nedelec_3d_ndofs d * 2 = (d + 1) * (d + 3) * (d + 4)
    ∧ nedelec_3d_ndofs d = Int.tdiv ((d + 1) * (d + 3) * (d + 4)) 2
    ∧ (create_nedelec_3d_dual env d).rows = nedelec_3d_ndofs d
    ∧ (create_nedelec_3d_space_wcoeffs env d).rows * 2 = (d + 1) * (d + 2) * (d + 6)
    ∧ (create_nedelec_3d_space_wcoeffs env d).rows = Int.tdiv ((d + 1) * (d + 2) * (d + 6)) 2
    ∧ ((create_nedelec_3d_space_wcoeffs env d).rows - nedelec_3d_ndofs d) * 2 = d * (d + 1)
    ∧ (create_nedelec_3d_space_wcoeffs env d).rows - nedelec_3d_ndofs d
        = Int.tdiv (d * (d + 1)) 2
    ∧ (d = 0 → (create_nedelec_3d_space_wcoeffs env d).rows - nedelec_3d_ndofs d = 0)
    ∧ ∀ R : DMat, create_nedelec_3d_space env d = Except.ok R →
        (create_nedelec_3d_space_wcoeffs env d).rows - R.rows = Int.tdiv (d * (d + 1)) 2 := by
  have h6 := six_mul_tdiv_consecutive (d + 1) (by omega)
  have h2 := two_mul_tdiv_consecutive (d + 1) (by omega)
  have h0 := six_mul_tdiv_consecutive d hd
  have hi := two_mul_tdiv_interior d hd
  have e1 : d + 1 + 1 = d + 2 := by ring
  have e2 : d + 1 + 2 = d + 3 := by ring
  rw [e1, e2] at h6
  rw [e1] at h2
  have hex := nedelec_3d_excess d hd
  have hrows := create_nedelec_3d_space_wcoeffs_rows env d
  have hn2 : nedelec_3d_ndofs d * 2 = (d + 1) * (d + 3) * (d + 4) := by
    unfold nedelec_3d_ndofs
    linear_combination hi
  have hw2 : (create_nedelec_3d_space_wcoeffs env d).rows * 2 = (d + 1) * (d + 2) * (d + 6) := by
    rw [hrows]
    linear_combination h6 + 3 * h2
  have hdiff2 : ((create_nedelec_3d_space_wcoeffs env d).rows - nedelec_3d_ndofs d) * 2
      = d * (d + 1) := by
    rw [hrows]
    linear_combination hex
  have hdiff : (create_nedelec_3d_space_wcoeffs env d).rows - nedelec_3d_ndofs d
      = Int.tdiv (d * (d + 1)) 2 :=
    (Int.tdiv_eq_of_eq_mul_left (by norm_num) hdiff2.symm).symm
  refine ⟨h6, h2, h0, hi, rfl, hn2, (Int.tdiv_eq_of_eq_mul_left (by norm_num) hn2.symm).symm,
    create_nedelec_3d_dual_rows env d, hw2,
    (Int.tdiv_eq_of_eq_mul_left (by norm_num) hw2.symm).symm, hdiff2, hdiff, ?_, ?_⟩
  · intro hz
    rw [hdiff, hz]
    decide
  · intro R hR
    rw [create_nedelec_3d_space_rows env d R hR]
    exact hdiff

/-- C16 witness: at degree 2 the unreduced matrix has 48 rows and `ndofs = 45`. -/
theorem nedelec_3d_redundant_rows_witness :
    (create_nedelec_3d_space_wcoeffs sample_env 2).rows - nedelec_3d_ndofs 2 = 3 :=
  (nedelec_3d_redundant_rows sample_env 2 (by decide)).2.2.2.2.2.2.2.2.2.2.2.1.trans (by decide)

/-! ## Tetrahedron: a clean gap passes the singular-value check -/

/-- C17. For every degree `d ≥ 0` and every non-increasing sequence `s` of singular values with
at least `ndofs` entries such that `s[ndofs-1] > 1e-12` and, if index `ndofs` exists,
`s[ndofs] < 1e-12`, neither check loop of `create_nedelec_3d_space` raises and the reduced matrix
is returned. For such sorted `s`, both loops pass if and only if the two boundary entries pass:
`s[ndofs-1]` is not below the tolerance and `s[ndofs]`, if it exists, is not above it. -/
theorem clean_gap_accepted (env : Collaborators) (d : Int) (s : DVec) (hd : 0 ≤ d)
    (hs : (env.svd (create_nedelec_3d_space_wcoeffs env d)).singularValues = s)
    (hsorted : ∀ i j : Int, 0 ≤ i → i ≤ j → j < s.size → s.coeff j ≤ s.coeff i)
    (hlen : nedelec_3d_ndofs d ≤ s.size) :
    ((s.coeff (nedelec_3d_ndofs d - 1) > tol
        ∧ (nedelec_3d_ndofs d < s.size → s.coeff (nedelec_3d_ndofs d) < tol)) →
      forLoopE 0 (nedelec_3d_ndofs d) (fun i =>
          if s.coeff i < tol then Except.error (Exn.runtime_error "Error in Nedelec3D space")
          else Except.ok ()) = Except.ok ()
      ∧ forLoopE (nedelec_3d_ndofs d) s.size (fun i =>
          if s.coeff i > tol then Except.error (Exn.runtime_error "Error in Nedelec3D space")
          else Except.ok ()) = Except.ok ()
      ∧ create_nedelec_3d_space env d
          = Except.ok ((env.svd (create_nedelec_3d_space_wcoeffs env d)).matrixV.transpose.topRows
              (nedelec_3d_ndofs d)))
    ∧ ((forLoopE 0 (nedelec_3d_ndofs d) (fun i =>
          if s.coeff i < tol then Except.error (Exn.runtime_error "Error in Nedelec3D space")
          else Except.ok ()) = Except.ok ()
        ∧ forLoopE (nedelec_3d_ndofs d) s.size (fun i =>
          if s.coeff i > tol then Except.error (Exn.runtime_error "Error in Nedelec3D space")
          else Except.ok ()) = Except.ok ())
      ↔ (¬ s.coeff (nedelec_3d_ndofs d - 1) < tol
          ∧ (nedelec_3d_ndofs d < s.size → ¬ s.coeff (nedelec_3d_ndofs d) > tol))) := by
  have h6 := nedelec_3d_ndofs_ge_six d hd
  have hiff : (forLoopE 0 (nedelec_3d_ndofs d) (fun i =>
          if s.coeff i < tol then Except.error (Exn.runtime_error "Error in Nedelec3D space")
          else Except.ok ()) = Except.ok ()
        ∧ forLoopE (nedelec_3d_ndofs d) s.size (fun i =>
          if s.coeff i > tol then Except.error (Exn.runtime_error "Error in Nedelec3D space")
          else Except.ok ()) = Except.ok ())
      ↔ (¬ s.coeff (nedelec_3d_ndofs d - 1) < tol
          ∧ (nedelec_3d_ndofs d < s.size → ¬ s.coeff (nedelec_3d_ndofs d) > tol)) := by
    unfold forLoopE
    rw [loopE_ok_iff, loopE_ok_iff]
    constructor
    · rintro ⟨hlo, hhi⟩
      constructor
      · intro hlt
        have h := hlo (nedelec_3d_ndofs d - 1).toNat (by omega)
        have e : (0 : Int) + ((nedelec_3d_ndofs d - 1).toNat : Int) = nedelec_3d_ndofs d - 1 := by
          omega
        rw [e, if_pos hlt] at h
        cases h
      · intro hex hgt
        have h := hhi 0 (by omega)
        rw [Nat.cast_zero, add_zero, if_pos hgt] at h
        cases h
    · rintro ⟨hlo, hhi⟩
      constructor
      · intro t ht
        have hle := hsorted (0 + (t : Int)) (nedelec_3d_ndofs d - 1) (by omega) (by omega)
          (by omega)
        rw [if_neg (not_lt.mpr (le_trans (not_lt.mp hlo) hle))]
      · intro t ht
        have hlt : nedelec_3d_ndofs d < s.size := by omega
        have hle := hsorted (nedelec_3d_ndofs d) (nedelec_3d_ndofs d + (t : Int)) (by omega)
          (by omega) (by omega)
        rw [if_neg (not_lt.mpr (le_trans hle (not_lt.mp (hhi hlt))))]
  refine ⟨?_, hiff⟩
  rintro ⟨hgap1, hgap2⟩
  have hboth := hiff.mpr ⟨not_lt.mpr (le_of_lt hgap1), fun hex => not_lt.mpr (le_of_lt (hgap2 hex))⟩
  refine ⟨hboth.1, hboth.2, ?_⟩
  have hb1 := hboth.1
  have hb2 := hboth.2
  unfold forLoopE at hb1 hb2
  rw [loopE_ok_iff] at hb1 hb2
  apply create_nedelec_3d_space_ok
  · intro t ht
    rw [hs]
    intro hlt
    have h := hb1 t ht
    rw [if_pos hlt] at h
    cases h
  · intro t ht
    rw [hs] at ht ⊢
    intro hgt
    have h := hb2 t ht
    rw [if_pos hgt] at h
    cases h

theorem tol_pos : 0 < tol := by
  unfold tol
  norm_num

/-- C17 witness: degree 1 with twenty singular values `1` followed by one `0`. -/
theorem clean_gap_accepted_witness :
    create_nedelec_3d_space clean_gap_env 1
      = Except.ok ((clean_gap_env.svd (create_nedelec_3d_space_wcoeffs clean_gap_env 1)
          ).matrixV.transpose.topRows (nedelec_3d_ndofs 1)) :=
  ((clean_gap_accepted clean_gap_env 1 ⟨21, fun i => if i < 20 then 1 else 0⟩ (by decide) rfl
    (by
      intro i j _ hij _
      show (if j < 20 then (1 : ℚ) else 0) ≤ (if i < 20 then (1 : ℚ) else 0)
      by_cases hj : j < 20
      · have hi : i < 20 := by omega
        rw [if_pos hj, if_pos hi]
      · rw [if_neg hj]
        split <;> norm_num)
    (by decide)).1
    (by
      have h20 : nedelec_3d_ndofs 1 = 20 := by decide
      rw [h20]
      constructor
      · show (if (20 : Int) - 1 < 20 then (1 : ℚ) else 0) > tol
        rw [if_pos (by decide)]
        exact lt_of_le_of_ne tol_le_one (by unfold tol; norm_num)
      · intro _
        show (if (20 : Int) < 20 then (1 : ℚ) else 0) < tol
        rw [if_neg (by decide)]
        exact tol_pos)).2.2

/-! ## Row layout of the functional matrices -/

theorem face_count_pos (d : Int) (hd : 0 < d) : 0 < 4 * d * (d + 1) :=
  mul_pos (by omega) (by omega)

theorem interior_count_pos (d : Int) (hd : 1 < d) :
    0 < Int.tdiv ((d - 1) * d * (d + 1)) 2 := by
  have hi := two_mul_tdiv_interior d (by omega)
  have hp : 0 < (d - 1) * d * (d + 1) := mul_pos (mul_pos (by omega) (by omega)) (by omega)
  omega

theorem interior_count_zero (d : Int) (hd0 : 0 ≤ d) (hd1 : d ≤ 1) :
    Int.tdiv ((d - 1) * d * (d + 1)) 2 = 0 := by
  have h : d = 0 ∨ d = 1 := by omega
  rcases h with h | h <;> subst h <;> decide

/-- The entries of the matrix of `create_nedelec_3d_dual`, block by block. -/
theorem create_nedelec_3d_dual_coeff (env : Collaborators) (d : Int) (hd : 0 ≤ d) (r c : Int)
    (hc0 : 0 ≤ c) (hc : c < Int.tdiv ((d + 2) * (d + 3) * (d + 4)) 6 * 3) :
    (0 ≤ r → r < 6 * (d + 1) →
      (create_nedelec_3d_dual env d).coeff r c
        = (env.make_tangent_integral_moments ⟨CellType.interval, d⟩ CellType.tetrahedron 3
            (d + 1) (5 * (d + 1))).coeff r c)
    ∧ (6 * (d + 1) ≤ r → r < 6 * (d + 1) + 4 * d * (d + 1) →
      (create_nedelec_3d_dual env d).coeff r c
        = (env.make_integral_moments ⟨CellType.triangle, d - 1⟩ CellType.tetrahedron 3
            (d + 1) (5 * (d + 1))).coeff (r - 6 * (d + 1)) c)
    ∧ (6 * (d + 1) + 4 * d * (d + 1) ≤ r →
      r < 6 * (d + 1) + 4 * d * (d + 1) + Int.tdiv ((d - 1) * d * (d + 1)) 2 →
      (create_nedelec_3d_dual env d).coeff r c
        = (env.make_integral_moments ⟨CellType.tetrahedron, d - 2⟩ CellType.tetrahedron 3
            (d + 1) (5 * (d + 1))).coeff (r - (6 * (d + 1) + 4 * d * (d + 1))) c) := by
  have hface : 0 ≤ 4 * d * (d + 1) := mul_nonneg (by omega) (by omega)
  unfold create_nedelec_3d_dual
  dsimp only
  by_cases h0 : d > 0
  · by_cases h1 : d > 1
    · have hint := interior_count_pos d h1
      rw [if_pos h0, if_pos h1]
      unfold DMat.setBlock DMat.zero
      dsimp only
      refine ⟨fun hr0 hr => ?_, fun hr0 hr => ?_, fun hr0 hr => ?_⟩
      · rw [if_neg (by omega), if_neg (by omega), if_pos (by omega)]
        simp
      · rw [if_neg (by omega), if_pos (by omega)]
        simp
      · rw [if_pos (by omega)]
        simp
    · have hint := interior_count_zero d hd (by omega)
      rw [if_pos h0, if_neg h1]
      unfold DMat.setBlock DMat.zero
      dsimp only
      refine ⟨fun hr0 hr => ?_, fun hr0 hr => ?_, fun hr0 hr => ?_⟩
      · rw [if_neg (by omega), if_pos (by omega)]
        simp
      · rw [if_pos (by omega)]
        simp
      · exact absurd hr (by omega)
  · have hd0 : d = 0 := by omega
    have hint := interior_count_zero d hd (by omega)
    have hf0 : 4 * d * (d + 1) = 0 := by rw [hd0]; decide
    rw [if_neg h0, if_neg (by omega)]
    unfold DMat.setBlock DMat.zero
    dsimp only
    refine ⟨fun hr0 hr => ?_, fun hr0 hr => ?_, fun hr0 hr => ?_⟩
    · rw [if_pos (by omega)]
      simp
    · exact absurd hr (by omega)
    · exact absurd hr (by omega)

/-- The entries of the matrix of `create_nedelec_2d_dual`, block by block. -/
theorem create_nedelec_2d_dual_coeff (env : Collaborators) (d : Int) (hd : 0 ≤ d) (r c : Int)
    (hc0 : 0 ≤ c) (hc : c < Int.tdiv ((d + 2) * (d + 3)) 2 * 2) :
    (0 ≤ r → r < 3 * (d + 1) →
      (create_nedelec_2d_dual env d).coeff r c
        = (env.make_tangent_integral_moments ⟨CellType.interval, d⟩ CellType.triangle 2
            (d + 1) (5 * (d + 1))).coeff r c)
    ∧ (3 * (d + 1) ≤ r → r < 3 * (d + 1) + d * (d + 1) →
      (create_nedelec_2d_dual env d).coeff r c
        = (env.make_integral_moments ⟨CellType.triangle, d - 1⟩ CellType.triangle 2
            (d + 1) (5 * (d + 1))).coeff (r - 3 * (d + 1)) c) := by
  unfold create_nedelec_2d_dual
  dsimp only
  by_cases h0 : d > 0
  · have hpos : 0 < d * (d + 1) := mul_pos h0 (by omega)
    rw [if_pos h0]
    unfold DMat.setBlock DMat.zero
    dsimp only
    refine ⟨fun hr0 hr => ?_, fun hr0 hr => ?_⟩
    · rw [if_neg (by omega), if_pos (by omega)]
      simp
    · rw [if_pos (by omega)]
      simp
  · have hd0 : d = 0 := by omega
    have hz : d * (d + 1) = 0 := by rw [hd0]; decide
    rw [if_neg h0]
    unfold DMat.setBlock DMat.zero
    dsimp only
    refine ⟨fun hr0 hr => ?_, fun hr0 hr => ?_⟩
    · rw [if_pos (by omega)]
      simp
    · exact absurd hr (by omega)

/-- C14. For every degree `d ≥ 0`: in `create_nedelec_3d_dual` the edge-moment block fills rows
`[0, 6 (d + 1))`, the face-moment block the next `4 d (d + 1)` rows and the interior-moment block
the last `(d - 1) d (d + 1) / 2` rows; in `create_nedelec_2d_dual` the edge block fills rows
`[0, 3 (d + 1))` and the interior block the next `d (d + 1)` rows. The blocks are consecutive,
pairwise disjoint and cover exactly the rows `0 .. ndofs - 1`, and the guard of a block
(`degree > 0`, `degree > 1`) holds exactly when the block has a positive number of rows. -/
theorem dual_row_layout (env : Collaborators) (d : Int) (hd : 0 ≤ d) :
    ((create_nedelec_3d_dual env d).rows
        = 6 * (d + 1) + 4 * d * (d + 1) + Int.tdiv ((d - 1) * d * (d + 1)) 2
      ∧ 0 ≤ 6 * (d + 1) ∧ 0 ≤ 4 * d * (d + 1) ∧ 0 ≤ Int.tdiv ((d - 1) * d * (d + 1)) 2
      ∧ (d > 0 ↔ 0 < 4 * d * (d + 1))
      ∧ (d > 1 ↔ 0 < Int.tdiv ((d - 1) * d * (d + 1)) 2)
      ∧ (∀ r : Int, (0 ≤ r ∧ r < (create_nedelec_3d_dual env d).rows)
          ↔ ((0 ≤ r ∧ r < 6 * (d + 1))
            ∨ (6 * (d + 1) ≤ r ∧ r < 6 * (d + 1) + 4 * d * (d + 1))
            ∨ (6 * (d + 1) + 4 * d * (d + 1) ≤ r
              ∧ r < 6 * (d + 1) + 4 * d * (d + 1) + Int.tdiv ((d - 1) * d * (d + 1)) 2)))
      ∧ ∀ r c : Int, 0 ≤ c → c < (create_nedelec_3d_dual env d).cols →
          (0 ≤ r → r < 6 * (d + 1) →
            (create_nedelec_3d_dual env d).coeff r c
              = (env.make_tangent_integral_moments ⟨CellType.interval, d⟩ CellType.tetrahedron
                  3 (d + 1) (5 * (d + 1))).coeff r c)
          ∧ (6 * (d + 1) ≤ r → r < 6 * (d + 1) + 4 * d * (d + 1) →
            (create_nedelec_3d_dual env d).coeff r c
              = (env.make_integral_moments ⟨CellType.triangle, d - 1⟩ CellType.tetrahedron 3
                  (d + 1) (5 * (d + 1))).coeff (r - 6 * (d + 1)) c)
          ∧ (6 * (d + 1) + 4 * d * (d + 1) ≤ r →
            r < 6 * (d + 1) + 4 * d * (d + 1) + Int.tdiv ((d - 1) * d * (d + 1)) 2 →
            (create_nedelec_3d_dual env d).coeff r c
              = (env.make_integral_moments ⟨CellType.tetrahedron, d - 2⟩ CellType.tetrahedron
                  3 (d + 1) (5 * (d + 1))).coeff (r - (6 * (d + 1) + 4 * d * (d + 1))) c))
    ∧ ((create_nedelec_2d_dual env d).rows = 3 * (d + 1) + d * (d + 1)
      ∧ 0 ≤ 3 * (d + 1) ∧ 0 ≤ d * (d + 1)
      ∧ (d > 0 ↔ 0 < d * (d + 1))
      ∧ (∀ r : Int, (0 ≤ r ∧ r < (create_nedelec_2d_dual env d).rows)
          ↔ ((0 ≤ r ∧ r < 3 * (d + 1))
            ∨ (3 * (d + 1) ≤ r ∧ r < 3 * (d + 1) + d * (d + 1))))
      ∧ ∀ r c : Int, 0 ≤ c → c < (create_nedelec_2d_dual env d).cols →
          (0 ≤ r → r < 3 * (d + 1) →
            (create_nedelec_2d_dual env d).coeff r c
              = (env.make_tangent_integral_moments ⟨CellType.interval, d⟩ CellType.triangle 2
                  (d + 1) (5 * (d + 1))).coeff r c)
          ∧ (3 * (d + 1) ≤ r → r < 3 * (d + 1) + d * (d + 1) →
            (create_nedelec_2d_dual env d).coeff r c
              = (env.make_integral_moments ⟨CellType.triangle, d - 1⟩ CellType.triangle 2
                  (d + 1) (5 * (d + 1))).coeff (r - 3 * (d + 1)) c)) := by
  have hface : 0 ≤ 4 * d * (d + 1) := mul_nonneg (by omega) (by omega)
  have hint : 0 ≤ Int.tdiv ((d - 1) * d * (d + 1)) 2 := by
    by_cases h1 : 1 < d
    · exact le_of_lt (interior_count_pos d h1)
    · exact le_of_eq (interior_count_zero d hd (by omega)).symm
  have hprod : 0 ≤ d * (d + 1) := mul_nonneg hd (by omega)
  have hrows3 : (create_nedelec_3d_dual env d).rows
      = 6 * (d + 1) + 4 * d * (d + 1) + Int.tdiv ((d - 1) * d * (d + 1)) 2 :=
    create_nedelec_3d_dual_rows env d
  have hcols3 : (create_nedelec_3d_dual env d).cols
      = Int.tdiv ((d + 2) * (d + 3) * (d + 4)) 6 * 3 := by
    unfold create_nedelec_3d_dual
    dsimp only
    split <;> split <;> rfl
  have hrows2 := create_nedelec_2d_dual_rows env d
  have hcols2 : (create_nedelec_2d_dual env d).cols = Int.tdiv ((d + 2) * (d + 3)) 2 * 2 := by
    unfold create_nedelec_2d_dual
    dsimp only
    split <;> rfl
  refine ⟨⟨hrows3, by omega, hface, hint, ⟨face_count_pos d, ?_⟩, ⟨interior_count_pos d, ?_⟩,
    ?_, ?_⟩, ⟨hrows2, by omega, hprod, ⟨fun h => mul_pos h (by omega), ?_⟩, ?_, ?_⟩⟩
  · intro hpos
    by_contra hcon
    have hd0 : d = 0 := by omega
    rw [hd0] at hpos
    exact absurd hpos (by decide)
  · intro hpos
    by_contra hcon
    have hz := interior_count_zero d hd (by omega)
    omega
  · intro r
    rw [hrows3]
    omega
  · intro r c hc0 hc
    rw [hcols3] at hc
    exact create_nedelec_3d_dual_coeff env d hd r c hc0 hc
  · intro hpos
    by_contra hcon
    have hd0 : d = 0 := by omega
    rw [hd0] at hpos
    exact absurd hpos (by decide)
  · intro r
    rw [hrows2]
    omega
  · intro r c hc0 hc
    rw [hcols2] at hc
    exact create_nedelec_2d_dual_coeff env d hd r c hc0 hc

/-- C14 witness: degree 2 with the concrete collaborators (18, 24 and 3 rows). -/
theorem dual_row_layout_witness :
    (create_nedelec_3d_dual sample_env 2).rows = 45
    ∧ (create_nedelec_2d_dual sample_env 2).rows = 15 :=
  ⟨(dual_row_layout sample_env 2 (by decide)).1.1.trans (by decide),
    (dual_row_layout sample_env 2 (by decide)).2.1.trans (by decide)⟩

/-! ## `CrouzeixRaviart`: the evaluation points -/

theorem facet_sum_coeff (g : DMat) (c : Int) (f : List Int) (M : DMat) (r j : Int) :
    (f.foldl (fun pts i => pts.addRow c (g.row i)) M).coeff r j
      = if r = c then M.coeff r j + (f.map (fun i => g.coeff i j)).sum else M.coeff r j := by
  induction f generalizing M with
  | nil => simp
  | cons i rest ih =>
    rw [List.foldl_cons, ih]
    unfold DMat.addRow DMat.row
    dsimp only
    by_cases h : r = c
    · rw [if_pos h, if_pos h, if_pos h, List.map_cons, List.sum_cons]
      ring
    · rw [if_neg h, if_neg h, if_neg h]

theorem facet_sum_shape (g : DMat) (c : Int) (f : List Int) (M : DMat) :
    (f.foldl (fun pts i => pts.addRow c (g.row i)) M).rows = M.rows
    ∧ (f.foldl (fun pts i => pts.addRow c (g.row i)) M).cols = M.cols := by
  induction f generalizing M with
  | nil => exact ⟨rfl, rfl⟩
  | cons i rest ih =>
    rw [List.foldl_cons]
    exact ih _

/-- The loop over the facets: the counter advances by one per facet, and row `c0 + n` receives
the sum of the vertices of the `n`-th facet. -/
theorem facet_loop_coeff (g : DMat) (F : List (List Int)) (M : DMat) (c0 : Int) :
    (F.foldl (fun (st : DMat × Int) f =>
        (f.foldl (fun pts i => pts.addRow st.2 (g.row i)) st.1, st.2 + 1)) (M, c0)).2
      = c0 + (F.length : Int)
    ∧ (F.foldl (fun (st : DMat × Int) f =>
        (f.foldl (fun pts i => pts.addRow st.2 (g.row i)) st.1, st.2 + 1)) (M, c0)).1.rows
      = M.rows
    ∧ (F.foldl (fun (st : DMat × Int) f =>
        (f.foldl (fun pts i => pts.addRow st.2 (g.row i)) st.1, st.2 + 1)) (M, c0)).1.cols
      = M.cols
    ∧ ∀ (n : Nat) (f : List Int) (j : Int), F[n]? = some f →
        (F.foldl (fun (st : DMat × Int) f =>
          (f.foldl (fun pts i => pts.addRow st.2 (g.row i)) st.1, st.2 + 1)) (M, c0)).1.coeff
            (c0 + (n : Int)) j
          = M.coeff (c0 + (n : Int)) j + (f.map (fun i => g.coeff i j)).sum := by
  induction F generalizing M c0 with
  | nil =>
    refine ⟨by simp, rfl, rfl, ?_⟩
    intro n f j h
    simp at h
  | cons f0 rest ih =>
    rw [List.foldl_cons]
    dsimp only
    obtain ⟨h2, hr, hc, hcoef⟩ := ih (f0.foldl (fun pts i => pts.addRow c0 (g.row i)) M) (c0 + 1)
    refine ⟨?_, ?_, ?_, ?_⟩
    · rw [h2, List.length_cons]
      push_cast
      ring
    · rw [hr]
      exact (facet_sum_shape g c0 f0 M).1
    · rw [hc]
      exact (facet_sum_shape g c0 f0 M).2
    · intro n f j hn
      cases n with
      | zero =>
        have hf : f0 = f := by simpa using hn
        subst hf
        -- the later facets write to the rows after `c0`
        have hlater : ∀ (G : List (List Int)) (N : DMat) (c1 : Int), c0 < c1 →
            (G.foldl (fun (st : DMat × Int) f =>
              (f.foldl (fun pts i => pts.addRow st.2 (g.row i)) st.1, st.2 + 1)) (N, c1)).1.coeff
                c0 j = N.coeff c0 j := by
          intro G
          induction G with
          | nil => intro N c1 _; rfl
          | cons g0 grest ihG =>
            intro N c1 hlt
            rw [List.foldl_cons]
            dsimp only
            rw [ihG _ (c1 + 1) (by omega), facet_sum_coeff, if_neg (by omega)]
        rw [Nat.cast_zero, add_zero, hlater rest _ (c0 + 1) (by omega), facet_sum_coeff,
          if_pos rfl]
      | succ m =>
        have hm : rest[m]? = some f := by simpa using hn
        have h := hcoef m f j hm
        have e : c0 + ((m + 1 : Nat) : Int) = c0 + 1 + (m : Int) := by push_cast; ring
        rw [e, h, facet_sum_coeff, if_neg (by omega)]

/-- The evaluation points of `CrouzeixRaviart`: one row per facet in facet order, and row `c`
is the sum of the vertices of facet `c` divided by the topological dimension. -/
theorem crouzeix_raviart_pts_coeff (env : Collaborators) (celltype : CellType) :
    (CrouzeixRaviart.pts env celltype).rows
      = (((env.topology celltype).getD (env.topological_dimension celltype - 1).toNat
          []).length : Int)
    ∧ (CrouzeixRaviart.pts env celltype).cols = env.topological_dimension celltype
    ∧ ∀ (c : Nat) (f : List Int) (j : Int),
        ((env.topology celltype).getD (env.topological_dimension celltype - 1).toNat [])[c]?
          = some f →
        (CrouzeixRaviart.pts env celltype).coeff (c : Int) j
          = (f.map (fun i => (env.geometry celltype).coeff i j)).sum
            / (env.topological_dimension celltype : ℚ) := by
  unfold CrouzeixRaviart.pts
  dsimp only
  obtain ⟨_, hr, hc, hcoef⟩ := facet_loop_coeff (env.geometry celltype)
    ((env.topology celltype).getD (env.topological_dimension celltype - 1).toNat [])
    (DMat.zero (((env.topology celltype).getD (env.topological_dimension celltype - 1).toNat
      []).length : Int) (env.topological_dimension celltype)) 0
  refine ⟨hr, hc, ?_⟩
  intro c f j hf
  have h := hcoef c f j hf
  rw [zero_add] at h
  show (_ : ℚ) / _ = _
  rw [h]
  simp [DMat.zero]

/-- For a cell whose facets all have as many vertices as the topological dimension (the
simplices), row `c` is the arithmetic mean of the vertices of facet `c`. -/
theorem crouzeix_raviart_pts_simplex (env : Collaborators) (celltype : CellType)
    (c : Nat) (f : List Int) (j : Int)
    (hf : ((env.topology celltype).getD (env.topological_dimension celltype - 1).toNat [])[c]?
      = some f)
    (hsize : (f.length : Int) = env.topological_dimension celltype) :
    (CrouzeixRaviart.pts env celltype).coeff (c : Int) j
      = (f.map (fun i => (env.geometry celltype).coeff i j)).sum / (f.length : ℚ) := by
  rw [(crouzeix_raviart_pts_coeff env celltype).2.2 c f j hf, ← hsize]
  simp

/-- C13 at the reference hexahedron: the evaluation-point matrix has one row per face, but the
row of face 5 (vertices 4, 5, 6, 7, all with `z = 1`) is `(2/3, 2/3, 4/3)`, the vertex sum
divided by the topological dimension 3, whereas the arithmetic mean of the four vertices, the
midpoint of the face, is `(1/2, 1/2, 1)`. -/
theorem crouzeix_raviart_hexahedron_points :
    (CrouzeixRaviart.pts hexahedron_env hexahedron).rows = 6
    ∧ (CrouzeixRaviart.pts hexahedron_env hexahedron).coeff 5 0 = 2 / 3
    ∧ (CrouzeixRaviart.pts hexahedron_env hexahedron).coeff 5 1 = 2 / 3
    ∧ (CrouzeixRaviart.pts hexahedron_env hexahedron).coeff 5 2 = 4 / 3
    ∧ (([4, 5, 6, 7] : List Int).map
          (fun i => (hexahedron_env.geometry hexahedron).coeff i 0)).sum / 4 = 1 / 2
    ∧ (([4, 5, 6, 7] : List Int).map
          (fun i => (hexahedron_env.geometry hexahedron).coeff i 1)).sum / 4 = 1 / 2
    ∧ (([4, 5, 6, 7] : List Int).map
          (fun i => (hexahedron_env.geometry hexahedron).coeff i 2)).sum / 4 = 1
    ∧ (CrouzeixRaviart.pts hexahedron_env hexahedron).coeff 5 2
        ≠ (([4, 5, 6, 7] : List Int).map
            (fun i => (hexahedron_env.geometry hexahedron).coeff i 2)).sum / 4 := by
  have h := crouzeix_raviart_pts_coeff hexahedron_env hexahedron
  have hf : ((hexahedron_env.topology hexahedron).getD
      (hexahedron_env.topological_dimension hexahedron - 1).toNat [])[5]?
        = some [4, 5, 6, 7] := rfl
  have h0 := h.2.2 5 [4, 5, 6, 7] 0 hf
  have h1 := h.2.2 5 [4, 5, 6, 7] 1 hf
  have h2 := h.2.2 5 [4, 5, 6, 7] 2 hf
  have e0 : (([4, 5, 6, 7] : List Int).map
      (fun i => (hexahedron_env.geometry hexahedron).coeff i 0)).sum = 2 := by
    simp [hexahedron_env]
    norm_num
  have e1 : (([4, 5, 6, 7] : List Int).map
      (fun i => (hexahedron_env.geometry hexahedron).coeff i 1)).sum = 2 := by
    simp [hexahedron_env]
    norm_num
  have e2 : (([4, 5, 6, 7] : List Int).map
      (fun i => (hexahedron_env.geometry hexahedron).coeff i 2)).sum = 4 := by
    simp [hexahedron_env]
    norm_num
  have ht : ((hexahedron_env.topological_dimension hexahedron : Int) : ℚ) = 3 := by
    simp [hexahedron_env]
  rw [e0, ht] at h0
  rw [e1, ht] at h1
  rw [e2, ht] at h2
  have h0' : (CrouzeixRaviart.pts hexahedron_env hexahedron).coeff 5 0 = 2 / 3 := h0
  have h1' : (CrouzeixRaviart.pts hexahedron_env hexahedron).coeff 5 1 = 2 / 3 := h1
  have h2' : (CrouzeixRaviart.pts hexahedron_env hexahedron).coeff 5 2 = 4 / 3 := h2
  refine ⟨h.1, h0', h1', h2', ?_, ?_, ?_, ?_⟩
  · rw [e0]; norm_num
  · rw [e1]; norm_num
  · rw [e2]; norm_num
  · rw [h2', e2]; norm_num

/-! ## Tetrahedron: the rotational block of the spanning matrix -/

/-- The matrix assembled by `create_nedelec_3d_space` is the rotational loops applied to the
matrix holding the three identity blocks. -/
theorem create_nedelec_3d_space_wcoeffs_loop (env : Collaborators) (d : Int) (Qpts : DMat)
    (Qwts : DVec) (P : DMat) (hQ : env.make_quadrature 3 (2 * d + 2) = (Qpts, Qwts))
    (hP : first (env.tabulate CellType.tetrahedron (d + 1) 0 Qpts) = P) :
    create_nedelec_3d_space_wcoeffs env d
      = rotation_loops (Int.tdiv ((d + 1) * (d + 2) * (d + 3)) 6)
          (Int.tdiv ((d + 1) * (d + 2)) 2) P.cols
          (fun i k j =>
            (((Qwts.cmul (P.col (Int.tdiv (d * (d + 1) * (d + 2)) 6 + i))).cmul
              (Qpts.col j)).cmul (P.col k)).sum)
          (forLoop 3 (fun i w =>
              w.setBlock (Int.tdiv ((d + 1) * (d + 2) * (d + 3)) 6 * i) (P.cols * i)
                (Int.tdiv ((d + 1) * (d + 2) * (d + 3)) 6)
                (Int.tdiv ((d + 1) * (d + 2) * (d + 3)) 6)
                (DMat.identity (Int.tdiv ((d + 1) * (d + 2) * (d + 3)) 6)
                  (Int.tdiv ((d + 1) * (d + 2) * (d + 3)) 6)))
            (DMat.zero
              ((Int.tdiv ((d + 1) * (d + 2) * (d + 3)) 6 + Int.tdiv ((d + 1) * (d + 2)) 2) * 3)
              (P.cols * 3))) := by
  unfold create_nedelec_3d_space_wcoeffs rotation_loops rotation_body
  dsimp only
  rw [hQ]
  dsimp only
  rw [hP]

theorem loopN_untouched (body : Int → DMat → DMat) (r c : Int) (n : Nat) (w : DMat)
    (h : ∀ t : Nat, t < n → ∀ M : DMat, (body (t : Int) M).coeff r c = M.coeff r c) :
    (loopN body n w).coeff r c = w.coeff r c := by
  induction n with
  | zero => rfl
  | succ m ih =>
    unfold loopN
    rw [h m (Nat.lt_succ_self m)]
    exact ih (fun t ht => h t (Nat.lt_succ_of_lt ht))

/-- A loop in which only round `t0` touches the entry `(r, c)`: the final entry is what round
`t0` makes of the initial entry. -/
theorem loopN_single_touch (body : Int → DMat → DMat) (r c : Int) (n : Nat) (w : DMat)
    (t0 : Nat) (ht0 : t0 < n) (g : ℚ → ℚ)
    (hother : ∀ t : Nat, t < n → t ≠ t0 → ∀ M : DMat,
      (body (t : Int) M).coeff r c = M.coeff r c)
    (hval : ∀ M : DMat, (body (t0 : Int) M).coeff r c = g (M.coeff r c)) :
    (loopN body n w).coeff r c = g (w.coeff r c) := by
  induction n with
  | zero => exact absurd ht0 (Nat.not_lt_zero t0)
  | succ m ih =>
    unfold loopN
    rcases Nat.lt_succ_iff_lt_or_eq.mp ht0 with hlt | heq
    · rw [hother m (Nat.lt_succ_self m) (by omega)]
      exact ih hlt (fun t ht hne => hother t (Nat.lt_succ_of_lt ht) hne)
    · subst heq
      rw [hval]
      congr 1
      exact loopN_untouched body r c t0 w
        (fun t ht => hother t (Nat.lt_succ_of_lt ht) (by omega))

theorem tmod_values :
    Int.tmod (0 + 1) 3 = 1 ∧ Int.tmod (0 + 2) 3 = 2 ∧ Int.tmod (1 + 1) 3 = 2
    ∧ Int.tmod (1 + 2) 3 = 0 ∧ Int.tmod (2 + 1) 3 = 0 ∧ Int.tmod (2 + 2) 3 = 1 := by
  decide

/-- The entries after the three rounds `j = 0, 1, 2` for fixed `(i, k)`, as the nested
conditional of the six assignments, last assignment first. -/
theorem rotation_rounds_coeff (nv ns psize : Int) (val : Int → Int → Int → ℚ) (i k : Int)
    (M : DMat) (r c : Int) :
    (forLoop 3 (fun j w => rotation_body nv ns psize val i k j w) M).coeff r c
      = if r = 3 * nv + i + ns * 1 ∧ c = psize * 0 + k then val i k 2
        else if r = 3 * nv + i + ns * 0 ∧ c = psize * 1 + k then - val i k 2
        else if r = 3 * nv + i + ns * 0 ∧ c = psize * 2 + k then val i k 1
        else if r = 3 * nv + i + ns * 2 ∧ c = psize * 0 + k then - val i k 1
        else if r = 3 * nv + i + ns * 2 ∧ c = psize * 1 + k then val i k 0
        else if r = 3 * nv + i + ns * 1 ∧ c = psize * 2 + k then - val i k 0
        else M.coeff r c := by
  obtain ⟨t01, t02, t11, t12, t21, t22⟩ := tmod_values
  show (loopN (fun j w => rotation_body nv ns psize val i k j w) 3 M).coeff r c = _
  unfold loopN loopN loopN loopN rotation_body
  simp only [Nat.cast_ofNat, Nat.cast_zero, Nat.cast_one, t01, t02, t11, t12, t21, t22,
    DMat.set]

theorem rotation_rounds_other_row (nv ns psize : Int) (val : Int → Int → Int → ℚ) (i k : Int)
    (M : DMat) (r c : Int) (h0 : r ≠ 3 * nv + i + ns * 0) (h1 : r ≠ 3 * nv + i + ns * 1)
    (h2 : r ≠ 3 * nv + i + ns * 2) :
    (forLoop 3 (fun j w => rotation_body nv ns psize val i k j w) M).coeff r c = M.coeff r c := by
  rw [rotation_rounds_coeff, if_neg (fun h => h1 h.1), if_neg (fun h => h0 h.1),
    if_neg (fun h => h0 h.1), if_neg (fun h => h2 h.1), if_neg (fun h => h2 h.1),
    if_neg (fun h => h1 h.1)]

theorem rotation_rounds_other_col (nv ns psize : Int) (val : Int → Int → Int → ℚ) (i k : Int)
    (M : DMat) (r c : Int) (h0 : c ≠ psize * 0 + k) (h1 : c ≠ psize * 1 + k)
    (h2 : c ≠ psize * 2 + k) :
    (forLoop 3 (fun j w => rotation_body nv ns psize val i k j w) M).coeff r c = M.coeff r c := by
  rw [rotation_rounds_coeff, if_neg (fun h => h0 h.2), if_neg (fun h => h1 h.2),
    if_neg (fun h => h2 h.2), if_neg (fun h => h0 h.2), if_neg (fun h => h1 h.2),
    if_neg (fun h => h2 h.2)]

theorem rotation_row_eq_iff (nv ns i : Int) (hns : 0 < ns) (a b : Int) :
    3 * nv + i + ns * a = 3 * nv + i + ns * b ↔ a = b := by
  constructor
  · intro h
    have h2 : ns * a = ns * b := by omega
    exact mul_left_cancel₀ (ne_of_gt hns) h2
  · intro h
    rw [h]

theorem rotation_col_eq_iff (psize k : Int) (hps : 0 < psize) (a b : Int) :
    psize * a + k = psize * b + k ↔ a = b := by
  constructor
  · intro h
    have h2 : psize * a = psize * b := by omega
    exact mul_left_cancel₀ (ne_of_gt hps) h2
  · intro h
    rw [h]

theorem rotation_rounds_value (nv ns psize : Int) (val : Int → Int → Int → ℚ) (i k : Int)
    (M : DMat) (hns : 0 < ns) (hps : 0 < psize) (a b : Int)
    (ha : a = 0 ∨ a = 1 ∨ a = 2) (hb : b = 0 ∨ b = 1 ∨ b = 2) :
    (forLoop 3 (fun j w => rotation_body nv ns psize val i k j w) M).coeff
        (3 * nv + i + ns * a) (psize * b + k)
      = rotation_entry val i k a b (M.coeff (3 * nv + i + ns * a) (psize * b + k)) := by
  rw [rotation_rounds_coeff]
  unfold rotation_entry
  simp only [rotation_row_eq_iff nv ns i hns, rotation_col_eq_iff psize k hps]
  rcases ha with ha | ha | ha <;> rcases hb with hb | hb | hb <;> subst ha <;> subst hb <;>
    norm_num

theorem rotation_k_loop_other_row (nv ns psize : Int) (val : Int → Int → Int → ℚ) (i : Int)
    (M : DMat) (r c : Int) (h0 : r ≠ 3 * nv + i + ns * 0) (h1 : r ≠ 3 * nv + i + ns * 1)
    (h2 : r ≠ 3 * nv + i + ns * 2) :
    (forLoop psize (fun k w =>
        forLoop 3 (fun j w => rotation_body nv ns psize val i k j w) w) M).coeff r c
      = M.coeff r c := by
  unfold forLoop
  apply loopN_untouched
  intro t _ N
  exact rotation_rounds_other_row nv ns psize val i (t : Int) N r c h0 h1 h2

theorem rotation_k_loop_value (nv ns psize : Int) (val : Int → Int → Int → ℚ) (i : Int)
    (M : DMat) (hns : 0 < ns) (a b : Int)
    (ha : a = 0 ∨ a = 1 ∨ a = 2) (hb : b = 0 ∨ b = 1 ∨ b = 2) (k : Nat)
    (hk : (k : Int) < psize) :
    (forLoop psize (fun k w =>
        forLoop 3 (fun j w => rotation_body nv ns psize val i k j w) w) M).coeff
        (3 * nv + i + ns * a) (psize * b + (k : Int))
      = rotation_entry val i (k : Int) a b
          (M.coeff (3 * nv + i + ns * a) (psize * b + (k : Int))) := by
  have hps : 0 < psize := by omega
  unfold forLoop
  apply loopN_single_touch _ _ _ _ _ k (by omega) (rotation_entry val i (k : Int) a b)
  · intro t ht hne N
    have htk : (t : Int) ≠ (k : Int) := by exact_mod_cast hne
    have htp : (t : Int) < psize := by omega
    apply rotation_rounds_other_col nv ns psize val i (t : Int) N
    · rcases hb with hb | hb | hb <;> subst hb <;> omega
    · rcases hb with hb | hb | hb <;> subst hb <;> omega
    · rcases hb with hb | hb | hb <;> subst hb <;> omega
  · intro N
    exact rotation_rounds_value nv ns psize val i (k : Int) N hns hps a b ha hb

/-- The entries of the rotational rows after the three nested loops. -/
theorem rotation_loops_value (nv ns psize : Int) (val : Int → Int → Int → ℚ) (M : DMat)
    (a b : Int) (ha : a = 0 ∨ a = 1 ∨ a = 2) (hb : b = 0 ∨ b = 1 ∨ b = 2) (i k : Nat)
    (hi : (i : Int) < ns) (hk : (k : Int) < psize) :
    (rotation_loops nv ns psize val M).coeff (3 * nv + (i : Int) + ns * a)
        (psize * b + (k : Int))
      = rotation_entry val (i : Int) (k : Int) a b
          (M.coeff (3 * nv + (i : Int) + ns * a) (psize * b + (k : Int))) := by
  have hns : 0 < ns := by omega
  unfold rotation_loops forLoop
  apply loopN_single_touch _ _ _ _ _ i (by omega)
    (rotation_entry val (i : Int) (k : Int) a b)
  · intro t ht hne N
    have hti : (t : Int) ≠ (i : Int) := by exact_mod_cast hne
    have htn : (t : Int) < ns := by omega
    apply rotation_k_loop_other_row nv ns psize val (t : Int) N
    · rcases ha with ha | ha | ha <;> subst ha <;> omega
    · rcases ha with ha | ha | ha <;> subst ha <;> omega
    · rcases ha with ha | ha | ha <;> subst ha <;> omega
  · intro N
    exact rotation_k_loop_value nv ns psize val (i : Int) N hns a b ha hb k hk

/-- The three identity blocks lie in the rows below `3 nv`: every later row of the initial
matrix is zero. -/
theorem identity_blocks_rows (nv psize rows cols : Int) (r c : Int) (hr : 3 * nv ≤ r) :
    (forLoop 3 (fun i w => w.setBlock (nv * i) (psize * i) nv nv (DMat.identity nv nv))
      (DMat.zero rows cols)).coeff r c = 0 := by
  show (loopN (fun i w => w.setBlock (nv * i) (psize * i) nv nv (DMat.identity nv nv)) 3
    (DMat.zero rows cols)).coeff r c = 0
  unfold loopN loopN loopN loopN
  simp only [Nat.cast_ofNat, Nat.cast_zero, Nat.cast_one, DMat.setBlock, DMat.zero]
  rw [if_neg (by omega), if_neg (by omega), if_neg (by omega)]

/-- The entry of block `(a, b)` of the rotational rows of the matrix assembled by
`create_nedelec_3d_space`. -/
theorem rotational_block_entry (env : Collaborators) (d : Int) (Qpts : DMat) (Qwts : DVec)
    (P : DMat) (hQ : env.make_quadrature 3 (2 * d + 2) = (Qpts, Qwts))
    (hP : first (env.tabulate CellType.tetrahedron (d + 1) 0 Qpts) = P)
    (a b : Int) (ha : a = 0 ∨ a = 1 ∨ a = 2) (hb : b = 0 ∨ b = 1 ∨ b = 2) (i k : Int)
    (hi0 : 0 ≤ i) (hi : i < Int.tdiv ((d + 1) * (d + 2)) 2) (hk0 : 0 ≤ k) (hk : k < P.cols) :
    (create_nedelec_3d_space_wcoeffs env d).coeff
        (3 * Int.tdiv ((d + 1) * (d + 2) * (d + 3)) 6 + i + Int.tdiv ((d + 1) * (d + 2)) 2 * a)
        (P.cols * b + k)
      = rotation_entry (fun i k j =>
            (((Qwts.cmul (P.col (Int.tdiv (d * (d + 1) * (d + 2)) 6 + i))).cmul
              (Qpts.col j)).cmul (P.col k)).sum) i k a b 0 := by
  obtain ⟨i, rfl⟩ := Int.eq_ofNat_of_zero_le hi0
  obtain ⟨k, rfl⟩ := Int.eq_ofNat_of_zero_le hk0
  rw [create_nedelec_3d_space_wcoeffs_loop env d Qpts Qwts P hQ hP,
    rotation_loops_value _ _ _ _ _ a b ha hb i k hi hk,
    identity_blocks_rows]
  rcases ha with ha | ha | ha <;> subst ha <;> omega

theorem rotation_entry_antisymm (val : Int → Int → Int → ℚ) (i k a b : Int)
    (ha : a = 0 ∨ a = 1 ∨ a = 2) (hb : b = 0 ∨ b = 1 ∨ b = 2) :
    rotation_entry val i k a b 0 = - rotation_entry val i k b a 0 := by
  unfold rotation_entry
  rcases ha with ha | ha | ha <;> rcases hb with hb | hb | hb <;> subst ha <;> subst hb <;>
    norm_num

/-- No two assignments of the rotational loops hit the same entry. -/
theorem rotation_writes_distinct (nv ns psize : Int) (i1 k1 j1 i2 k2 j2 : Int)
    (hi1 : 0 ≤ i1 ∧ i1 < ns) (hi2 : 0 ≤ i2 ∧ i2 < ns)
    (hk1 : 0 ≤ k1 ∧ k1 < psize) (hk2 : 0 ≤ k2 ∧ k2 < psize)
    (hj1 : j1 = 0 ∨ j1 = 1 ∨ j1 = 2) (hj2 : j2 = 0 ∨ j2 = 1 ∨ j2 = 2) :
    (rotation_write_neg nv ns psize i1 k1 j1 = rotation_write_neg nv ns psize i2 k2 j2 →
      i1 = i2 ∧ k1 = k2 ∧ j1 = j2)
    ∧ (rotation_write_pos nv ns psize i1 k1 j1 = rotation_write_pos nv ns psize i2 k2 j2 →
      i1 = i2 ∧ k1 = k2 ∧ j1 = j2)
    ∧ rotation_write_neg nv ns psize i1 k1 j1 ≠ rotation_write_pos nv ns psize i2 k2 j2 := by
  obtain ⟨t01, t02, t11, t12, t21, t22⟩ := tmod_values
  unfold rotation_write_neg rotation_write_pos
  rcases hj1 with h1 | h1 | h1 <;> rcases hj2 with h2 | h2 | h2 <;> subst h1 <;> subst h2 <;>
    simp only [t01, t02, t11, t12, t21, t22, Prod.mk.injEq, ne_eq] <;>
    refine ⟨fun h => ?_, fun h => ?_, fun h => ?_⟩ <;>
    first | omega | exact ⟨by omega, by omega, trivial⟩

/-- Every entry of an off-diagonal block is the target of some round, and no round targets an
entry of a diagonal block. -/
theorem rotation_writes_cover (nv ns psize : Int) (i k : Int) (hi : 0 ≤ i ∧ i < ns)
    (hk : 0 ≤ k ∧ k < psize) (a b : Int) (ha : a = 0 ∨ a = 1 ∨ a = 2)
    (hb : b = 0 ∨ b = 1 ∨ b = 2) :
    (a ≠ b → ∃ j : Int, (j = 0 ∨ j = 1 ∨ j = 2)
      ∧ (rotation_write_neg nv ns psize i k j = (3 * nv + i + ns * a, psize * b + k)
        ∨ rotation_write_pos nv ns psize i k j = (3 * nv + i + ns * a, psize * b + k)))
    ∧ (a = b → ∀ i2 k2 j2 : Int, (0 ≤ i2 ∧ i2 < ns) → (0 ≤ k2 ∧ k2 < psize) →
        (j2 = 0 ∨ j2 = 1 ∨ j2 = 2) →
        rotation_write_neg nv ns psize i2 k2 j2 ≠ (3 * nv + i + ns * a, psize * b + k)
        ∧ rotation_write_pos nv ns psize i2 k2 j2 ≠ (3 * nv + i + ns * a, psize * b + k)) := by
  obtain ⟨t01, t02, t11, t12, t21, t22⟩ := tmod_values
  constructor
  · intro hab
    rcases ha with ha | ha | ha <;> rcases hb with hb | hb | hb <;> subst ha <;> subst hb
    · exact absurd rfl hab
    · exact ⟨2, Or.inr (Or.inr rfl), Or.inl (by unfold rotation_write_neg; rw [t21, t22])⟩
    · exact ⟨1, Or.inr (Or.inl rfl), Or.inr (by unfold rotation_write_pos; rw [t11, t12])⟩
    · exact ⟨2, Or.inr (Or.inr rfl), Or.inr (by unfold rotation_write_pos; rw [t21, t22])⟩
    · exact absurd rfl hab
    · exact ⟨0, Or.inl rfl, Or.inl (by unfold rotation_write_neg; rw [t01, t02])⟩
    · exact ⟨1, Or.inr (Or.inl rfl), Or.inl (by unfold rotation_write_neg; rw [t11, t12])⟩
    · exact ⟨0, Or.inl rfl, Or.inr (by unfold rotation_write_pos; rw [t01, t02])⟩
    · exact absurd rfl hab
  · intro hab i2 k2 j2 hi2 hk2 hj2
    subst hab
    unfold rotation_write_neg rotation_write_pos
    rcases ha with ha | ha | ha <;> rcases hj2 with hj | hj | hj <;> subst ha <;> subst hj <;>
      simp only [t01, t02, t11, t12, t21, t22, Prod.mk.injEq, ne_eq] <;>
      refine ⟨fun h => ?_, fun h => ?_⟩ <;> omega

/-- C11. In the matrix assembled by `create_nedelec_3d_space` before the rank reduction, for
every `0 ≤ i < ns`, `0 ≤ k < psize` and `a, b ∈ {0, 1, 2}`:
`W(3 nv + ns a + i, psize b + k) = - W(3 nv + ns b + i, psize a + k)`; the diagonal blocks are
zero; with `j` the third index, block `(j + 1, j + 2) mod 3` holds
`- ∑_q w_q φ_(ns0 + i)(x_q) x_q[j] φ_k(x_q)` and block `(j + 2, j + 1) mod 3` holds the same sum
with sign `+`; the rounds of the loops assign pairwise different entries, every entry of an
off-diagonal block is the target of a round and no entry of a diagonal block is, so each entry
of the off-diagonal blocks is assigned exactly once. -/
theorem rotational_block_antisymmetric (env : Collaborators) (d : Int) (Qpts : DMat)
    (Qwts : DVec) (P : DMat) (hQ : env.make_quadrature 3 (2 * d + 2) = (Qpts, Qwts))
    (hP : first (env.tabulate CellType.tetrahedron (d + 1) 0 Qpts) = P)
    (i k : Int) (hi0 : 0 ≤ i) (hi : i < Int.tdiv ((d + 1) * (d + 2)) 2)
    (hk0 : 0 ≤ k) (hk : k < P.cols) :
    (∀ a b : Int, (a = 0 ∨ a = 1 ∨ a = 2) → (b = 0 ∨ b = 1 ∨ b = 2) →
      (create_nedelec_3d_space_wcoeffs env d).coeff
          (3 * Int.tdiv ((d + 1) * (d + 2) * (d + 3)) 6
            + Int.tdiv ((d + 1) * (d + 2)) 2 * a + i) (P.cols * b + k)
        = - (create_nedelec_3d_space_wcoeffs env d).coeff
            (3 * Int.tdiv ((d + 1) * (d + 2) * (d + 3)) 6
              + Int.tdiv ((d + 1) * (d + 2)) 2 * b + i) (P.cols * a + k))
    ∧ (∀ a : Int, (a = 0 ∨ a = 1 ∨ a = 2) →
      (create_nedelec_3d_space_wcoeffs env d).coeff
          (3 * Int.tdiv ((d + 1) * (d + 2) * (d + 3)) 6
            + Int.tdiv ((d + 1) * (d + 2)) 2 * a + i) (P.cols * a + k) = 0)
    ∧ (∀ j : Int, (j = 0 ∨ j = 1 ∨ j = 2) →
      (create_nedelec_3d_space_wcoeffs env d).coeff
          (3 * Int.tdiv ((d + 1) * (d + 2) * (d + 3)) 6
            + Int.tdiv ((d + 1) * (d + 2)) 2 * Int.tmod (j + 1) 3 + i)
          (P.cols * Int.tmod (j + 2) 3 + k)
        = - ∑ q ∈ Finset.range Qwts.size.toNat,
            Qwts.coeff (q : Int)
              * P.coeff (q : Int) (Int.tdiv (d * (d + 1) * (d + 2)) 6 + i)
              * Qpts.coeff (q : Int) j * P.coeff (q : Int) k
      ∧ (create_nedelec_3d_space_wcoeffs env d).coeff
          (3 * Int.tdiv ((d + 1) * (d + 2) * (d + 3)) 6
            + Int.tdiv ((d + 1) * (d + 2)) 2 * Int.tmod (j + 2) 3 + i)
          (P.cols * Int.tmod (j + 1) 3 + k)
        = ∑ q ∈ Finset.range Qwts.size.toNat,
            Qwts.coeff (q : Int)
              * P.coeff (q : Int) (Int.tdiv (d * (d + 1) * (d + 2)) 6 + i)
              * Qpts.coeff (q : Int) j * P.coeff (q : Int) k)
    ∧ (∀ i1 k1 j1 i2 k2 j2 : Int,
        (0 ≤ i1 ∧ i1 < Int.tdiv ((d + 1) * (d + 2)) 2) →
        (0 ≤ i2 ∧ i2 < Int.tdiv ((d + 1) * (d + 2)) 2) →
        (0 ≤ k1 ∧ k1 < P.cols) → (0 ≤ k2 ∧ k2 < P.cols) →
        (j1 = 0 ∨ j1 = 1 ∨ j1 = 2) → (j2 = 0 ∨ j2 = 1 ∨ j2 = 2) →
        (rotation_write_neg (Int.tdiv ((d + 1) * (d + 2) * (d + 3)) 6)
            (Int.tdiv ((d + 1) * (d + 2)) 2) P.cols i1 k1 j1
          = rotation_write_neg (Int.tdiv ((d + 1) * (d + 2) * (d + 3)) 6)
            (Int.tdiv ((d + 1) * (d + 2)) 2) P.cols i2 k2 j2 →
          i1 = i2 ∧ k1 = k2 ∧ j1 = j2)
        ∧ (rotation_write_pos (Int.tdiv ((d + 1) * (d + 2) * (d + 3)) 6)
            (Int.tdiv ((d + 1) * (d + 2)) 2) P.cols i1 k1 j1
          = rotation_write_pos (Int.tdiv ((d + 1) * (d + 2) * (d + 3)) 6)
            (Int.tdiv ((d + 1) * (d + 2)) 2) P.cols i2 k2 j2 →
          i1 = i2 ∧ k1 = k2 ∧ j1 = j2)
        ∧ rotation_write_neg (Int.tdiv ((d + 1) * (d + 2) * (d + 3)) 6)
            (Int.tdiv ((d + 1) * (d + 2)) 2) P.cols i1 k1 j1
          ≠ rotation_write_pos (Int.tdiv ((d + 1) * (d + 2) * (d + 3)) 6)
            (Int.tdiv ((d + 1) * (d + 2)) 2) P.cols i2 k2 j2)
    ∧ (∀ a b : Int, (a = 0 ∨ a = 1 ∨ a = 2) → (b = 0 ∨ b = 1 ∨ b = 2) →
        (a ≠ b → ∃ j : Int, (j = 0 ∨ j = 1 ∨ j = 2)
          ∧ (rotation_write_neg (Int.tdiv ((d + 1) * (d + 2) * (d + 3)) 6)
                (Int.tdiv ((d + 1) * (d + 2)) 2) P.cols i k j
              = (3 * Int.tdiv ((d + 1) * (d + 2) * (d + 3)) 6 + i
                  + Int.tdiv ((d + 1) * (d + 2)) 2 * a, P.cols * b + k)
            ∨ rotation_write_pos (Int.tdiv ((d + 1) * (d + 2) * (d + 3)) 6)
                (Int.tdiv ((d + 1) * (d + 2)) 2) P.cols i k j
              = (3 * Int.tdiv ((d + 1) * (d + 2) * (d + 3)) 6 + i
                  + Int.tdiv ((d + 1) * (d + 2)) 2 * a, P.cols * b + k)))
        ∧ (a = b → ∀ i2 k2 j2 : Int,
            (0 ≤ i2 ∧ i2 < Int.tdiv ((d + 1) * (d + 2)) 2) → (0 ≤ k2 ∧ k2 < P.cols) →
            (j2 = 0 ∨ j2 = 1 ∨ j2 = 2) →
            rotation_write_neg (Int.tdiv ((d + 1) * (d + 2) * (d + 3)) 6)
                (Int.tdiv ((d + 1) * (d + 2)) 2) P.cols i2 k2 j2
              ≠ (3 * Int.tdiv ((d + 1) * (d + 2) * (d + 3)) 6 + i
                  + Int.tdiv ((d + 1) * (d + 2)) 2 * a, P.cols * b + k)
            ∧ rotation_write_pos (Int.tdiv ((d + 1) * (d + 2) * (d + 3)) 6)
                (Int.tdiv ((d + 1) * (d + 2)) 2) P.cols i2 k2 j2
              ≠ (3 * Int.tdiv ((d + 1) * (d + 2) * (d + 3)) 6 + i
                  + Int.tdiv ((d + 1) * (d + 2)) 2 * a, P.cols * b + k)))
    ∧ ∀ (val : Int → Int → Int → ℚ) (i1 k1 j1 : Int) (w : DMat),
        rotation_body (Int.tdiv ((d + 1) * (d + 2) * (d + 3)) 6)
            (Int.tdiv ((d + 1) * (d + 2)) 2) P.cols val i1 k1 j1 w
          = (w.set
              (rotation_write_neg (Int.tdiv ((d + 1) * (d + 2) * (d + 3)) 6)
                (Int.tdiv ((d + 1) * (d + 2)) 2) P.cols i1 k1 j1).1
              (rotation_write_neg (Int.tdiv ((d + 1) * (d + 2) * (d + 3)) 6)
                (Int.tdiv ((d + 1) * (d + 2)) 2) P.cols i1 k1 j1).2 (- val i1 k1 j1)).set
              (rotation_write_pos (Int.tdiv ((d + 1) * (d + 2) * (d + 3)) 6)
                (Int.tdiv ((d + 1) * (d + 2)) 2) P.cols i1 k1 j1).1
              (rotation_write_pos (Int.tdiv ((d + 1) * (d + 2) * (d + 3)) 6)
                (Int.tdiv ((d + 1) * (d + 2)) 2) P.cols i1 k1 j1).2 (val i1 k1 j1) := by
  have hentry : ∀ a b : Int, (a = 0 ∨ a = 1 ∨ a = 2) → (b = 0 ∨ b = 1 ∨ b = 2) →
      (create_nedelec_3d_space_wcoeffs env d).coeff
          (3 * Int.tdiv ((d + 1) * (d + 2) * (d + 3)) 6
            + Int.tdiv ((d + 1) * (d + 2)) 2 * a + i) (P.cols * b + k)
        = rotation_entry (fun i k j =>
            (((Qwts.cmul (P.col (Int.tdiv (d * (d + 1) * (d + 2)) 6 + i))).cmul
              (Qpts.col j)).cmul (P.col k)).sum) i k a b 0 := by
    intro a b ha hb
    have h := rotational_block_entry env d Qpts Qwts P hQ hP a b ha hb i k hi0 hi hk0 hk
    have e : 3 * Int.tdiv ((d + 1) * (d + 2) * (d + 3)) 6
        + Int.tdiv ((d + 1) * (d + 2)) 2 * a + i
        = 3 * Int.tdiv ((d + 1) * (d + 2) * (d + 3)) 6 + i
          + Int.tdiv ((d + 1) * (d + 2)) 2 * a := by ring
    rw [e]
    exact h
  obtain ⟨t01, t02, t11, t12, t21, t22⟩ := tmod_values
  refine ⟨?_, ?_, ?_, ?_, ?_, ?_⟩
  · intro a b ha hb
    rw [hentry a b ha hb, hentry b a hb ha]
    exact rotation_entry_antisymm _ i k a b ha hb
  · intro a ha
    rw [hentry a a ha ha]
    unfold rotation_entry
    rw [if_pos rfl]
  · intro j hj
    rcases hj with hj | hj | hj <;> subst hj
    · rw [t01, t02, hentry 1 2 (by decide) (by decide), hentry 2 1 (by decide) (by decide)]
      unfold rotation_entry DVec.sum DVec.cmul DMat.col
      norm_num
    · rw [t11, t12, hentry 2 0 (by decide) (by decide), hentry 0 2 (by decide) (by decide)]
      unfold rotation_entry DVec.sum DVec.cmul DMat.col
      norm_num
    · rw [t21, t22, hentry 0 1 (by decide) (by decide), hentry 1 0 (by decide) (by decide)]
      unfold rotation_entry DVec.sum DVec.cmul DMat.col
      norm_num
  · intro i1 k1 j1 i2 k2 j2 hi1 hi2 hk1 hk2 hj1 hj2
    exact rotation_writes_distinct _ _ _ i1 k1 j1 i2 k2 j2 hi1 hi2 hk1 hk2 hj1 hj2
  · intro a b ha hb
    exact rotation_writes_cover _ _ _ i k ⟨hi0, hi⟩ ⟨hk0, hk⟩ a b ha hb
  · intro val i1 k1 j1 w
    rfl

/-- C11 witness: degree 0 with the centroid rule and the family `1, x, y, z`; blocks `(0, 1)`
and `(1, 0)` of the rotational rows are opposite. -/
theorem rotational_block_antisymmetric_witness :
    (create_nedelec_3d_space_wcoeffs sample_env 0).coeff
        (3 * Int.tdiv ((0 + 1) * (0 + 2) * (0 + 3)) 6 + Int.tdiv ((0 + 1) * (0 + 2)) 2 * 0 + 0)
        ((first (sample_tabulate CellType.tetrahedron (0 + 1) 0
          (sample_quadrature 3 2).1)).cols * 1 + 0)
      = - (create_nedelec_3d_space_wcoeffs sample_env 0).coeff
          (3 * Int.tdiv ((0 + 1) * (0 + 2) * (0 + 3)) 6
            + Int.tdiv ((0 + 1) * (0 + 2)) 2 * 1 + 0)
          ((first (sample_tabulate CellType.tetrahedron (0 + 1) 0
            (sample_quadrature 3 2).1)).cols * 0 + 0) :=
  (rotational_block_antisymmetric sample_env 0 (sample_quadrature 3 2).1
    (sample_quadrature 3 2).2
    (first (sample_tabulate CellType.tetrahedron (0 + 1) 0 (sample_quadrature 3 2).1))
    rfl rfl 0 0 (by decide) (by decide) (by decide) (by decide)).1 0 1
    (Or.inl rfl) (Or.inr (Or.inl rfl))

/-! ## Tetrahedron: index safety of the spanning-set builder -/

theorem create_nedelec_3d_space_wcoeffs_cols (env : Collaborators) (d : Int) :
    (create_nedelec_3d_space_wcoeffs env d).cols
      = (first (env.tabulate CellType.tetrahedron (d + 1) 0
          (env.make_quadrature 3 (2 * d + 2)).1)).cols * 3 := by
  unfold create_nedelec_3d_space_wcoeffs
  dsimp only
  rw [forLoop_cols, forLoop_cols]
  · rfl
  · intro i s
    rfl
  · intro i s
    rw [forLoop_cols]
    intro k w
    rw [forLoop_cols]
    intro j w2
    rfl

/-- The sizes of the tetrahedron builder: `ns0 + ns = nv ≤ psize` and
`ndofs ≤ min ((nv + ns) * 3, 3 psize)`. -/
theorem nedelec_3d_sizes (d : Int) (hd : 0 ≤ d) :
    Int.tdiv (d * (d + 1) * (d + 2)) 6 + Int.tdiv ((d + 1) * (d + 2)) 2
      = Int.tdiv ((d + 1) * (d + 2) * (d + 3)) 6
    ∧ Int.tdiv ((d + 1) * (d + 2) * (d + 3)) 6 ≤ Int.tdiv ((d + 2) * (d + 3) * (d + 4)) 6
    ∧ 0 ≤ Int.tdiv (d * (d + 1) * (d + 2)) 6
    ∧ 0 ≤ Int.tdiv ((d + 1) * (d + 2)) 2
    ∧ nedelec_3d_ndofs d
      ≤ (Int.tdiv ((d + 1) * (d + 2) * (d + 3)) 6 + Int.tdiv ((d + 1) * (d + 2)) 2) * 3
    ∧ nedelec_3d_ndofs d ≤ Int.tdiv ((d + 2) * (d + 3) * (d + 4)) 6 * 3 := by
  have hp := six_mul_tdiv_consecutive (d + 2) (by omega)
  have h6 := six_mul_tdiv_consecutive (d + 1) (by omega)
  have h2 := two_mul_tdiv_consecutive (d + 1) (by omega)
  have h0 := six_mul_tdiv_consecutive d hd
  have hi := two_mul_tdiv_interior d hd
  have e1 : d + 1 + 1 = d + 2 := by ring
  have e2 : d + 1 + 2 = d + 3 := by ring
  have e3 : d + 2 + 1 = d + 3 := by ring
  have e4 : d + 2 + 2 = d + 4 := by ring
  rw [e1, e2] at h6
  rw [e1] at h2
  rw [e3, e4] at hp
  have hex := nedelec_3d_excess d hd
  have hsum : (Int.tdiv (d * (d + 1) * (d + 2)) 6 + Int.tdiv ((d + 1) * (d + 2)) 2) * 6
      = Int.tdiv ((d + 1) * (d + 2) * (d + 3)) 6 * 6 := by
    linear_combination h0 + 3 * h2 - h6
  have hq : 0 ≤ (d + 2) * (d + 3) := mul_nonneg (by omega) (by omega)
  have hle : (Int.tdiv ((d + 2) * (d + 3) * (d + 4)) 6
      - Int.tdiv ((d + 1) * (d + 2) * (d + 3)) 6) * 6 = 3 * ((d + 2) * (d + 3)) := by
    linear_combination hp - h6
  have hn2 : nedelec_3d_ndofs d * 2 = (d + 1) * (d + 3) * (d + 4) := by
    unfold nedelec_3d_ndofs
    linear_combination hi
  have hr : 0 ≤ (d + 3) * (d + 4) := mul_nonneg (by omega) (by omega)
  have hcol : (Int.tdiv ((d + 2) * (d + 3) * (d + 4)) 6 * 3 - nedelec_3d_ndofs d) * 2
      = (d + 3) * (d + 4) := by
    linear_combination hp - hn2
  have hprod : 0 ≤ d * (d + 1) := mul_nonneg hd (by omega)
  refine ⟨by omega, by omega, ?_, ?_, by omega, by omega⟩
  · exact Int.tdiv_nonneg (mul_nonneg (mul_nonneg hd (by omega)) (by omega)) (by norm_num)
  · exact Int.tdiv_nonneg (mul_nonneg (by omega) (by omega)) (by norm_num)

/-- C15. For every degree `d ≥ 0`, when the tabulator returns
`psize = (d + 2)(d + 3)(d + 4) / 6` columns: `ns0 + ns = nv ≤ psize`, so every column index
`ns0 + i` with `0 ≤ i < ns` lies inside the tabulated matrix and every identity block lies
inside the `(nv + ns) * 3` by `psize * 3` matrix; every assignment of the rotational loops is
within these bounds; and `ndofs ≤ min ((nv + ns) * 3, 3 psize)`, so the `ndofs` rows taken from
`Vᵗ` and the entries `s[0 .. ndofs - 1]` exist whenever the decomposition has
`min (rows, cols)` singular values and vectors. -/
theorem nedelec_3d_index_safety (env : Collaborators) (d : Int) (hd : 0 ≤ d)
    (hP : (first (env.tabulate CellType.tetrahedron (d + 1) 0
        (env.make_quadrature 3 (2 * d + 2)).1)).cols
      = Int.tdiv ((d + 2) * (d + 3) * (d + 4)) 6) :
    Int.tdiv (d * (d + 1) * (d + 2)) 6 + Int.tdiv ((d + 1) * (d + 2)) 2
      = Int.tdiv ((d + 1) * (d + 2) * (d + 3)) 6
    ∧ Int.tdiv ((d + 1) * (d + 2) * (d + 3)) 6 ≤ Int.tdiv ((d + 2) * (d + 3) * (d + 4)) 6
    ∧ (∀ i : Int, 0 ≤ i → i < Int.tdiv ((d + 1) * (d + 2)) 2 →
        0 ≤ Int.tdiv (d * (d + 1) * (d + 2)) 6 + i
        ∧ Int.tdiv (d * (d + 1) * (d + 2)) 6 + i
          < (first (env.tabulate CellType.tetrahedron (d + 1) 0
              (env.make_quadrature 3 (2 * d + 2)).1)).cols)
    ∧ (create_nedelec_3d_space_wcoeffs env d).rows
      = (Int.tdiv ((d + 1) * (d + 2) * (d + 3)) 6 + Int.tdiv ((d + 1) * (d + 2)) 2) * 3
    ∧ (create_nedelec_3d_space_wcoeffs env d).cols
      = Int.tdiv ((d + 2) * (d + 3) * (d + 4)) 6 * 3
    ∧ (∀ t : Int, (t = 0 ∨ t = 1 ∨ t = 2) →
        0 ≤ Int.tdiv ((d + 1) * (d + 2) * (d + 3)) 6 * t
        ∧ Int.tdiv ((d + 1) * (d + 2) * (d + 3)) 6 * t
            + Int.tdiv ((d + 1) * (d + 2) * (d + 3)) 6
          ≤ (create_nedelec_3d_space_wcoeffs env d).rows
        ∧ 0 ≤ Int.tdiv ((d + 2) * (d + 3) * (d + 4)) 6 * t
        ∧ Int.tdiv ((d + 2) * (d + 3) * (d + 4)) 6 * t
            + Int.tdiv ((d + 1) * (d + 2) * (d + 3)) 6
          ≤ (create_nedelec_3d_space_wcoeffs env d).cols)
    ∧ (∀ i k j : Int, 0 ≤ i → i < Int.tdiv ((d + 1) * (d + 2)) 2 →
        0 ≤ k → k < Int.tdiv ((d + 2) * (d + 3) * (d + 4)) 6 → (j = 0 ∨ j = 1 ∨ j = 2) →
        (0 ≤ (rotation_write_neg (Int.tdiv ((d + 1) * (d + 2) * (d + 3)) 6)
              (Int.tdiv ((d + 1) * (d + 2)) 2)
              (Int.tdiv ((d + 2) * (d + 3) * (d + 4)) 6) i k j).1
          ∧ (rotation_write_neg (Int.tdiv ((d + 1) * (d + 2) * (d + 3)) 6)
              (Int.tdiv ((d + 1) * (d + 2)) 2)
              (Int.tdiv ((d + 2) * (d + 3) * (d + 4)) 6) i k j).1
            < (create_nedelec_3d_space_wcoeffs env d).rows
          ∧ 0 ≤ (rotation_write_neg (Int.tdiv ((d + 1) * (d + 2) * (d + 3)) 6)
              (Int.tdiv ((d + 1) * (d + 2)) 2)
              (Int.tdiv ((d + 2) * (d + 3) * (d + 4)) 6) i k j).2
          ∧ (rotation_write_neg (Int.tdiv ((d + 1) * (d + 2) * (d + 3)) 6)
              (Int.tdiv ((d + 1) * (d + 2)) 2)
              (Int.tdiv ((d + 2) * (d + 3) * (d + 4)) 6) i k j).2
            < (create_nedelec_3d_space_wcoeffs env d).cols)
        ∧ (0 ≤ (rotation_write_pos (Int.tdiv ((d + 1) * (d + 2) * (d + 3)) 6)
              (Int.tdiv ((d + 1) * (d + 2)) 2)
              (Int.tdiv ((d + 2) * (d + 3) * (d + 4)) 6) i k j).1
          ∧ (rotation_write_pos (Int.tdiv ((d + 1) * (d + 2) * (d + 3)) 6)
              (Int.tdiv ((d + 1) * (d + 2)) 2)
              (Int.tdiv ((d + 2) * (d + 3) * (d + 4)) 6) i k j).1
            < (create_nedelec_3d_space_wcoeffs env d).rows
          ∧ 0 ≤ (rotation_write_pos (Int.tdiv ((d + 1) * (d + 2) * (d + 3)) 6)
              (Int.tdiv ((d + 1) * (d + 2)) 2)
              (Int.tdiv ((d + 2) * (d + 3) * (d + 4)) 6) i k j).2
          ∧ (rotation_write_pos (Int.tdiv ((d + 1) * (d + 2) * (d + 3)) 6)
              (Int.tdiv ((d + 1) * (d + 2)) 2)
              (Int.tdiv ((d + 2) * (d + 3) * (d + 4)) 6) i k j).2
            < (create_nedelec_3d_space_wcoeffs env d).cols))
    ∧ nedelec_3d_ndofs d
      ≤ min (create_nedelec_3d_space_wcoeffs env d).rows
          (create_nedelec_3d_space_wcoeffs env d).cols
    ∧ ((env.svd (create_nedelec_3d_space_wcoeffs env d)).singularValues.size
          = min (create_nedelec_3d_space_wcoeffs env d).rows
              (create_nedelec_3d_space_wcoeffs env d).cols →
        ∀ t : Int, 0 ≤ t → t < nedelec_3d_ndofs d →
          t < (env.svd (create_nedelec_3d_space_wcoeffs env d)).singularValues.size)
    ∧ ((env.svd (create_nedelec_3d_space_wcoeffs env d)).matrixV.transpose.rows
          = min (create_nedelec_3d_space_wcoeffs env d).rows
              (create_nedelec_3d_space_wcoeffs env d).cols →
        nedelec_3d_ndofs d
          ≤ (env.svd (create_nedelec_3d_space_wcoeffs env d)).matrixV.transpose.rows) := by
  obtain ⟨hsum, hle, hns0, hns, hnr, hnc⟩ := nedelec_3d_sizes d hd
  have hnv : 0 ≤ Int.tdiv ((d + 1) * (d + 2) * (d + 3)) 6 := by omega
  have hrows := create_nedelec_3d_space_wcoeffs_rows env d
  have hcols : (create_nedelec_3d_space_wcoeffs env d).cols
      = Int.tdiv ((d + 2) * (d + 3) * (d + 4)) 6 * 3 := by
    rw [create_nedelec_3d_space_wcoeffs_cols, hP]
  have hmin : nedelec_3d_ndofs d
      ≤ min (create_nedelec_3d_space_wcoeffs env d).rows
          (create_nedelec_3d_space_wcoeffs env d).cols := by
    rw [hrows, hcols]
    exact le_min hnr hnc
  obtain ⟨t01, t02, t11, t12, t21, t22⟩ := tmod_values
  refine ⟨hsum, hle, ?_, hrows, hcols, ?_, ?_, hmin, ?_, ?_⟩
  · intro i hi0 hi
    rw [hP]
    omega
  · intro t ht
    rw [hrows, hcols]
    rcases ht with ht | ht | ht <;> subst ht <;> omega
  · intro i k j hi0 hi hk0 hk hj
    rw [hrows, hcols]
    unfold rotation_write_neg rotation_write_pos
    rcases hj with hj | hj | hj <;> subst hj <;>
      simp only [t01, t02, t11, t12, t21, t22] <;> omega
  · intro hsize t _ ht
    rw [hsize]
    omega
  · intro hsize
    rw [hsize]
    exact hmin

/-- C15 witness: degree 0 with the concrete collaborators, whose tabulator returns four
columns. -/
theorem nedelec_3d_index_safety_witness :
    nedelec_3d_ndofs 0
      ≤ min (create_nedelec_3d_space_wcoeffs sample_env 0).rows
          (create_nedelec_3d_space_wcoeffs sample_env 0).cols :=
  (nedelec_3d_index_safety sample_env 0 (by decide) (by decide)).2.2.2.2.2.2.2.1

/-! ## Tetrahedron: what a successful rank reduction returns -/

/-- The facet loop leaves the rows outside `[c0, c0 + F.length)` unchanged. -/
theorem facet_loop_outside (g : DMat) (F : List (List Int)) (M : DMat) (c0 r j : Int)
    (hr : r < c0 ∨ c0 + (F.length : Int) ≤ r) :
    (F.foldl (fun (st : DMat × Int) f =>
        (f.foldl (fun pts i => pts.addRow st.2 (g.row i)) st.1, st.2 + 1)) (M, c0)).1.coeff r j
      = M.coeff r j := by
  induction F generalizing M c0 with
  | nil => rfl
  | cons f0 rest ih =>
    rw [List.foldl_cons]
    dsimp only
    rw [List.length_cons] at hr
    push_cast at hr
    rw [ih _ (c0 + 1) (by omega), facet_sum_coeff, if_neg (by omega)]

/-- On a cell whose facets all have as many vertices as the topological dimension, the
evaluation points of `CrouzeixRaviart` are the facet midpoints. -/
theorem crouzeix_raviart_pts_eq_midpoints (env : Collaborators) (celltype : CellType)
    (hsimplex : ∀ f ∈ (env.topology celltype).getD
        (env.topological_dimension celltype - 1).toNat [],
      (f.length : Int) = env.topological_dimension celltype) :
    CrouzeixRaviart.pts env celltype = facet_midpoints env celltype := by
  obtain ⟨hr, hc, hcoef⟩ := crouzeix_raviart_pts_coeff env celltype
  have hfun : (CrouzeixRaviart.pts env celltype).coeff = (facet_midpoints env celltype).coeff := by
    funext r j
    show _ = if 0 ≤ r then
      ((match ((env.topology celltype).getD
          (env.topological_dimension celltype - 1).toNat [])[r.toNat]? with
        | some f => (f.map (fun i => (env.geometry celltype).coeff i j)).sum / (f.length : ℚ)
        | none => 0) : ℚ)
      else 0
    have hout : ∀ r : Int, (r < 0 ∨ (((env.topology celltype).getD
        (env.topological_dimension celltype - 1).toNat []).length : Int) ≤ r) →
        (CrouzeixRaviart.pts env celltype).coeff r j = 0 := by
      intro r hr
      unfold CrouzeixRaviart.pts
      dsimp only
      show (_ : ℚ) / _ = 0
      rw [facet_loop_outside _ _ _ 0 r j (by omega)]
      simp [DMat.zero]
    by_cases h0 : 0 ≤ r
    · rw [if_pos h0]
      obtain ⟨c, rfl⟩ := Int.eq_ofNat_of_zero_le h0
      rw [Int.toNat_ofNat]
      cases hf : ((env.topology celltype).getD
          (env.topological_dimension celltype - 1).toNat [])[c]? with
      | none =>
        rw [List.getElem?_eq_none_iff] at hf
        exact hout c (Or.inr (by exact_mod_cast hf))
      | some f =>
        have hmem := List.getElem?_mem hf
        exact crouzeix_raviart_pts_simplex env celltype c f j hf (hsimplex f hmem)
    · rw [if_neg h0]
      exact hout r (Or.inl (by omega))
  cases hp : CrouzeixRaviart.pts env celltype with
  | mk r1 c1 f1 =>
    rw [hp] at hr hc hfun
    unfold facet_midpoints
    dsimp only at hr hc hfun ⊢
    unfold facet_midpoints at hfun
    dsimp only at hfun
    rw [hr, hc, hfun]

/-- On a cell whose facets all have as many vertices as the topological dimension: whenever
the degree-1 tabulation `T` at the facet midpoints is an invertible square matrix of order
`ndofs`, the constructor returns an element whose basis, tabulated at the facet midpoints as
`T · _coeffsᵗ`, is the identity matrix. -/
theorem crouzeix_raviart_midpoint_reproduction (env : Collaborators) (celltype : CellType)
    (n : Nat) (T : DMat) (hsolver : env.apply_dualmat_to_basis = apply_dualmat_to_basis)
    (hsimplex : ∀ f ∈ (env.topology celltype).getD
        (env.topological_dimension celltype - 1).toNat [],
      (f.length : Int) = env.topological_dimension celltype)
    (hn : ((env.topology celltype).getD
        (env.topological_dimension celltype - 1).toNat []).length = n)
    (hT : first (env.tabulate celltype 1 0 (facet_midpoints env celltype)) = T)
    (hrows : T.rows = n) (hcols : T.cols = n) (hinv : IsUnit (T.toMatrix n)) :
    ∃ el : FiniteElement, CrouzeixRaviart env celltype 1 = Except.ok el
      ∧ ∀ k j : Int, 0 ≤ k → k < n → 0 ≤ j → j < n →
          (T.mul el.coeffs.transpose).coeff k j = if k = j then 1 else 0 :=
  crouzeix_raviart_reproduction env celltype n T hsolver hn
    (by rw [crouzeix_raviart_pts_eq_midpoints env celltype hsimplex]; exact hT) hrows hcols hinv

/-- The reference triangle with the family `1, x, y`: the basis of the constructed element,
tabulated at the three edge midpoints, is the identity matrix of order three. -/
theorem crouzeix_raviart_triangle_reproduction :
    (facet_midpoints sample_env CellType.triangle).coeff 0 0 = 1 / 2
    ∧ (facet_midpoints sample_env CellType.triangle).coeff 0 1 = 1 / 2
    ∧ ∃ el : FiniteElement, CrouzeixRaviart sample_env CellType.triangle 1 = Except.ok el
      ∧ ∀ k j : Int, 0 ≤ k → k < (3 : Nat) → 0 ≤ j → j < (3 : Nat) →
          ((first (sample_env.tabulate CellType.triangle 1 0
              (facet_midpoints sample_env CellType.triangle))).mul
            el.coeffs.transpose).coeff k j = if k = j then 1 else 0 := by
  have hs : ∀ f ∈ (sample_env.topology CellType.triangle).getD
      (sample_env.topological_dimension CellType.triangle - 1).toNat [],
      (f.length : Int) = sample_env.topological_dimension CellType.triangle := by
    intro f hf
    have hf' : f ∈ [[(1 : Int), 2], [0, 2], [0, 1]] := hf
    simp only [List.mem_cons, List.mem_singleton, List.not_mem_nil, or_false] at hf'
    rcases hf' with rfl | rfl | rfl <;> rfl
  have hp := crouzeix_raviart_pts_eq_midpoints sample_env CellType.triangle hs
  refine ⟨?_, ?_, ?_⟩
  · simp [facet_midpoints, sample_env, sample_topology, sample_topological_dimension,
      sample_geometry]
  · simp [facet_midpoints, sample_env, sample_topology, sample_topological_dimension,
      sample_geometry]
  · exact crouzeix_raviart_midpoint_reproduction sample_env CellType.triangle 3
      (first (sample_env.tabulate CellType.triangle 1 0
        (facet_midpoints sample_env CellType.triangle)))
      rfl hs rfl rfl rfl rfl
      (by
        rw [← hp, Matrix.isUnit_iff_isUnit_det, sample_midpoint_tabulation_det]
        norm_num)

end libtab
